import Mathlib

/-!
Shallow embedding of the in-memory video-editing core found in
`src/engine/cpp/core/clip.h`, `src/engine/cpp/core/timeline.h` and
`src/engine/cpp/core/timeline.cpp` (namespace `capcut`), together with the
theorems settling the specification claims about it.

Modelling conventions:
* C++ `double` fields are modelled as `ℚ`.  All claim-relevant arithmetic
  (comparisons, `max`, subtraction, the 1e-6 overlap tolerance) is exact on
  the inputs the spec discusses, so rational arithmetic is faithful.
* `std::unordered_map` secondary indices (`trackIndex_`, `clipIndex_`) are
  rebuilt in full by `rebuildIndices` after every structural change, so at
  rest they are a function of the sequence; they are modelled as the derived
  functions `trackIndexOf` / `clipIndexOf`.  The C++ rebuild loops assign in
  iteration order, so for a duplicated id the LAST occurrence wins; the
  derived functions reproduce that.
* `std::sort` guarantees only a sorted permutation (its order on ties is
  unspecified); the call sites sort by `lhs.start < rhs.start` and are
  modelled by a stable insertion sort under `start ≤ start`.
* Mutating `bool` methods on `Timeline` become functions
  `Timeline → args → Bool × Timeline`.
-/

namespace Capcut

set_option maxRecDepth 4000

/- Batteries marks the `Rat` arithmetic operations `@[irreducible]`, which
blocks `decide`-style evaluation of concrete states; the kernel ignores
reducibility, so restoring the default status is sound and lets concrete
scenarios evaluate. -/
attribute [local semireducible] Rat.add Rat.sub Rat.mul Rat.inv

/-- ClipKind from clip.h: Video, Audio, Image. -/
inductive ClipKind
  | video
  | audio
  | image
deriving DecidableEq

/-- TrackKind from timeline.h: Video, Audio, Overlay, Fx. -/
inductive TrackKind
  | video
  | audio
  | overlay
  | fx
deriving DecidableEq

/-- Effect from clip.h.  `params` is a `std::unordered_map<std::string,double>`
in the source; no claim depends on its iteration order, and it is modelled as
an association list. -/
structure Effect where
  id : String
  type : String
  params : List (String × ℚ)
  enabled : Bool := true
deriving DecidableEq

/-- TransitionSpec from clip.h. -/
structure TransitionSpec where
  id : String
  type : String
  duration : ℚ := 0
  easing : ℚ := 0
deriving DecidableEq

/-- Clip from clip.h. -/
structure Clip where
  id : String
  mediaId : String := ""
  trackId : String
  kind : ClipKind := ClipKind.video
  start : ℚ := 0
  duration : ℚ := 0
  trimStart : ℚ := 0
  trimEnd : ℚ := 0
  opacity : ℚ := 1
  volume : ℚ := 1
  effects : List Effect := []
  transitions : List TransitionSpec := []
deriving DecidableEq

instance : Inhabited Clip :=
  ⟨{ id := "", trackId := "" }⟩

/-- Clip::endTime from clip.h: start + duration. -/
def Clip.endTime (c : Clip) : ℚ := c.start + c.duration

/-- Track from timeline.h. -/
structure Track where
  id : String
  kind : TrackKind := TrackKind.video
  allowOverlap : Bool := false
  locked : Bool := false
  muted : Bool := false
  clips : List Clip := []
deriving DecidableEq

instance : Inhabited Track :=
  ⟨{ id := "" }⟩

/-- Sequence from timeline.h, with its default member initialisers. -/
structure Sequence where
  id : String := "sequence-0"
  name : String := "Main"
  width : Int := 1920
  height : Int := 1080
  fps : ℚ := 30
  sampleRate : Int := 48000
  duration : ℚ := 0
  tracks : List Track := []
deriving DecidableEq, Inhabited

/-- TimelineFrameInfo from timeline.h. -/
structure TimelineFrameInfo where
  clipId : String
  localTime : ℚ := 0
  globalTime : ℚ := 0
deriving DecidableEq

/-- Timeline state from timeline.h: the owned sequence plus the undo/redo
snapshot buffers.  The secondary index maps are derived state (see the file
header) and are not stored. -/
structure Timeline where
  sequence : Sequence
  undoStack : List Sequence := []
  redoStack : List Sequence := []
deriving DecidableEq

/-- A fresh Timeline: `Timeline::Timeline()` only reserves capacity, so the
state is the default-constructed sequence with empty history buffers. -/
def Timeline.init : Timeline :=
  { sequence := {} }

/-- Index of the LAST element of the list satisfying `p`, or `none`.  This is
the value a map holds after a loop that assigns `map[key] = i` for every
matching `i` in increasing order, as `Timeline::rebuildIndices` does. -/
def lastIdxWith {α : Type} (p : α → Bool) : List α → Option Nat
  | [] => none
  | a :: l =>
    match lastIdxWith p l with
    | some i => some (i + 1)
    | none => if p a then some 0 else none

/-- The `trackIndex_` map at rest, as rebuilt by `Timeline::rebuildIndices`:
track id → position of the (last) track with that id. -/
def trackIndexOf (s : Sequence) (trackId : String) : Option Nat :=
  lastIdxWith (fun tr => tr.id = trackId) s.tracks

/-- Walk a track list looking for a clip id; a match in a later track
overwrites one in an earlier track, and within one track the last matching
clip wins, exactly as the assignments of the rebuild loops do. -/
def clipIndexGo (clipId : String) : List Track → Option (Nat × Nat)
  | [] => none
  | tr :: rest =>
    match clipIndexGo clipId rest with
    | some tc => some (tc.1 + 1, tc.2)
    | none => (lastIdxWith (fun cl => cl.id = clipId) tr.clips).map (fun c => (0, c))

/-- The `clipIndex_` map at rest, as rebuilt by `Timeline::rebuildIndices`:
clip id → (track position, clip position) of the last occurrence in the
track-major, clip-minor iteration order of the rebuild loops. -/
def clipIndexOf (s : Sequence) (clipId : String) : Option (Nat × Nat) :=
  clipIndexGo clipId s.tracks

/-- The anonymous-namespace helper `clipOverlaps` in timeline.cpp:
two clips overlap when the length of the intersection of their
`[start, endTime]` intervals exceeds the 1e-6 tolerance. -/
def clipOverlaps (a b : Clip) : Bool :=
  decide ((1 : ℚ) / 1000000 < min a.endTime b.endTime - max a.start b.start)

/-- Timeline::validatePlacement: on an allowOverlap track everything is valid;
otherwise the candidate must not overlap any clip of the track except the one
at `ignoreIndex` (when given). -/
def validatePlacement (track : Track) (candidate : Clip) (ignoreIndex : Option Nat) : Bool :=
  if track.allowOverlap then true
  else track.clips.enum.all fun ic =>
    ignoreIndex = some ic.1 || !(clipOverlaps ic.2 candidate)

/-- The clip-comparator sort used by upsertClip and splitClip
(`std::sort` with `lhs.start < rhs.start`): modelled as a stable sort into
nondecreasing `start` order. -/
def sortClipsByStart (clips : List Clip) : List Clip :=
  clips.insertionSort (fun a b => a.start ≤ b.start)

/-- Replace the element at index `i` by `f` of it; out-of-range indices leave
the list unchanged (all in-source call sites are in range). -/
def listModify {α : Type} (l : List α) (i : Nat) (f : α → α) : List α :=
  match l.get? i with
  | some a => l.set i (f a)
  | none => l

/-- The track at position `t` (call sites only use in-range positions
produced by `trackIndexOf`). -/
def trackAt (s : Sequence) (t : Nat) : Track :=
  s.tracks.getD t default

/-- The clip at position (t, c) (call sites only use in-range positions
produced by `clipIndexOf`). -/
def clipAt (s : Sequence) (t c : Nat) : Clip :=
  (trackAt s t).clips.getD c default

/-- Rewrite the clip list of the track at position `t`. -/
def modifyTrackClips (s : Sequence) (t : Nat) (f : List Clip → List Clip) : Sequence :=
  { s with tracks := listModify s.tracks t (fun tr => { tr with clips := f tr.clips }) }

/-- Overwrite the clip at position (t, c), as writing through a
`Clip *` obtained from `findClip` does. -/
def setClipAt (s : Sequence) (t c : Nat) (clip : Clip) : Sequence :=
  modifyTrackClips s t (fun clips => clips.set c clip)

/-- Sort the clip list of the track at position `t` by start. -/
def sortTrackAt (s : Sequence) (t : Nat) : Sequence :=
  modifyTrackClips s t sortClipsByStart

/-- The timeline with its sequence replaced (history buffers untouched);
used to state the operation equations compactly. -/
def withSeq (tl : Timeline) (s : Sequence) : Timeline :=
  { tl with sequence := s }

/-- All clips of the sequence in track-major order, as the nested loops of
`Timeline::updateDuration` visit them. -/
def allClips (s : Sequence) : List Clip :=
  s.tracks.flatMap (fun tr => tr.clips)

/-- The running maximum computed by `Timeline::updateDuration`: it starts
from 0.0, so the result is never negative even when every endTime is. -/
def seqMaxEnd (s : Sequence) : ℚ :=
  (allClips s).foldl (fun m c => max m c.endTime) 0

/-- Timeline::updateDuration: cache the running maximum in
`sequence_.duration`. -/
def updateDuration (s : Sequence) : Sequence :=
  { s with duration := seqMaxEnd s }

/-- Timeline::pushUndo: append the current sequence, evict the oldest
snapshot beyond capacity 32, and clear the redo stack. -/
def pushUndo (tl : Timeline) : Timeline :=
  let undo := tl.undoStack ++ [tl.sequence]
  let undo := if 32 < undo.length then undo.drop 1 else undo
  { tl with undoStack := undo, redoStack := [] }

/-- Timeline::setSequenceMetadata: overwrite four fields, no snapshot. -/
def setSequenceMetadata (tl : Timeline) (width height : Int) (fps : ℚ)
    (sampleRate : Int) : Timeline :=
  { tl with sequence :=
    { tl.sequence with width := width, height := height, fps := fps,
                       sampleRate := sampleRate } }

/-- Timeline::addTrack: fail on a duplicate track id, otherwise snapshot and
append.  Note: no duration recompute. -/
def addTrack (tl : Timeline) (track : Track) : Bool × Timeline :=
  if (trackIndexOf tl.sequence track.id).isSome then (false, tl)
  else
    let tl1 := pushUndo tl
    (true, { tl1 with sequence :=
      { tl1.sequence with tracks := tl1.sequence.tracks ++ [track] } })

/-- Timeline::updateTrack: fail when the id names no track, otherwise
snapshot and replace the track wholesale (clips included, unsorted and
unvalidated).  Note: no sort, no duration recompute. -/
def updateTrack (tl : Timeline) (track : Track) : Bool × Timeline :=
  match trackIndexOf tl.sequence track.id with
  | none => (false, tl)
  | some t =>
    let tl1 := pushUndo tl
    (true, { tl1 with sequence :=
      { tl1.sequence with tracks := tl1.sequence.tracks.set t track } })

/-- Timeline::removeTrack: fail when the id names no track, otherwise
snapshot and erase it.  Note: no duration recompute. -/
def removeTrack (tl : Timeline) (trackId : String) : Bool × Timeline :=
  match trackIndexOf tl.sequence trackId with
  | none => (false, tl)
  | some t =>
    let tl1 := pushUndo tl
    (true, { tl1 with sequence :=
      { tl1.sequence with tracks := tl1.sequence.tracks.eraseIdx t } })

/-- Timeline::upsertClip.  The target track is looked up from the candidate's
`trackId`; an existing clip is located through `clipIndex_`.  Validation for
an existing clip ignores index `pair.second` WITHIN THE TARGET TRACK, even
when the existing clip lives in a different track; the overwrite goes through
the existing clip's own (track, clip) position while the sort is applied to
the target track, exactly as the pointers in the source are used. -/
def upsertClip (tl : Timeline) (clip : Clip) : Bool × Timeline :=
  match trackIndexOf tl.sequence clip.trackId with
  | none => (false, tl)
  | some tIdx =>
    match clipIndexOf tl.sequence clip.id with
    | none =>
      if !(validatePlacement (trackAt tl.sequence tIdx) clip none) then (false, tl)
      else
        let tl1 := pushUndo tl
        let s1 := modifyTrackClips tl1.sequence tIdx (fun clips => clips ++ [clip])
        let s2 := sortTrackAt s1 tIdx
        (true, { tl1 with sequence := updateDuration s2 })
    | some pair =>
      if !(validatePlacement (trackAt tl.sequence tIdx) clip (some pair.2)) then (false, tl)
      else
        let tl1 := pushUndo tl
        let s1 := setClipAt tl1.sequence pair.1 pair.2 clip
        let s2 := sortTrackAt s1 tIdx
        (true, { tl1 with sequence := updateDuration s2 })

/-- Timeline::moveClip.  Forms the candidate with the new trackId and start,
validates it against the target track with NO ignore index, then writes the
candidate back through the `findClip` pointer — i.e. into the clip's
CURRENT (track, clip) slot; the clip is never transferred between track
vectors, and no sort is performed. -/
def moveClip (tl : Timeline) (clipId targetTrackId : String) (newStart : ℚ) :
    Bool × Timeline :=
  match clipIndexOf tl.sequence clipId, trackIndexOf tl.sequence targetTrackId with
  | some pair, some tt =>
    let clip := clipAt tl.sequence pair.1 pair.2
    let candidate := { clip with trackId := targetTrackId, start := newStart }
    if !(validatePlacement (trackAt tl.sequence tt) candidate none) then (false, tl)
    else
      let tl1 := pushUndo tl
      let s1 := setClipAt tl1.sequence pair.1 pair.2 candidate
      (true, { tl1 with sequence := updateDuration s1 })
  | _, _ => (false, tl)

/-- Timeline::trimClip: fail when the clip is absent or the trimmed duration
would be ≤ 0; otherwise snapshot, accumulate the trims and shrink (the
arguments may be negative, in which case the clip grows).  `start` is
untouched and no overlap re-validation happens. -/
def trimClip (tl : Timeline) (clipId : String) (dStart dEnd : ℚ) : Bool × Timeline :=
  match clipIndexOf tl.sequence clipId with
  | none => (false, tl)
  | some pair =>
    let clip := clipAt tl.sequence pair.1 pair.2
    let newDuration := max 0 (clip.duration - dStart - dEnd)
    if newDuration ≤ 0 then (false, tl)
    else
      let tl1 := pushUndo tl
      let clip1 := { clip with trimStart := clip.trimStart + dStart,
                               trimEnd := clip.trimEnd + dEnd,
                               duration := newDuration }
      let s1 := setClipAt tl1.sequence pair.1 pair.2 clip1
      (true, { tl1 with sequence := updateDuration s1 })

/-- Timeline::splitClip.  The early argument checks precede the snapshot, but
the `findTrack(clip->trackId)` null-check runs AFTER `pushUndo()` and after
the first half has been written through the clip pointer, so that failure
path returns `false` with a snapshot pushed and the clip already mutated. -/
def splitClip (tl : Timeline) (clipId : String) (offsetSeconds : ℚ) : Bool × Timeline :=
  match clipIndexOf tl.sequence clipId with
  | none => (false, tl)
  | some pair =>
    let clip := clipAt tl.sequence pair.1 pair.2
    if offsetSeconds ≤ 0 ∨ clip.duration ≤ offsetSeconds then (false, tl)
    else
      let tl1 := pushUndo tl
      let secondHalf := { clip with id := clip.id ++ "_b",
                                    start := clip.start + offsetSeconds,
                                    trimStart := clip.trimStart + offsetSeconds,
                                    duration := clip.duration - offsetSeconds }
      let firstHalf := { clip with duration := offsetSeconds,
                                   trimEnd := clip.trimEnd + secondHalf.duration }
      let s1 := setClipAt tl1.sequence pair.1 pair.2 firstHalf
      match trackIndexOf s1 clip.trackId with
      | none => (false, { tl1 with sequence := s1 })
      | some t2 =>
        let s2 := modifyTrackClips s1 t2 (fun clips => clips ++ [secondHalf])
        let s3 := sortTrackAt s2 t2
        (true, { tl1 with sequence := updateDuration s3 })

/-- The shift loop of Timeline::rippleDelete.  The source compares each
remaining clip's start against `clip->start` read THROUGH A POINTER INTO THE
VECTOR AFTER THE ERASE: slot `cc` then holds the erased clip's successor — or,
when the erased clip was last, the destroyed slot whose scalar fields retain
the removed clip's values under the common library implementation (`leftover`
models that read).  Because the loop itself rewrites slot `cc` when it reaches
it, iterations past `cc` compare against the already-shifted value. -/
def rippleShift (erased : List Clip) (cc : Nat) (leftover d : ℚ) : List Clip :=
  let t0 := ((erased.get? cc).map Clip.start).getD leftover
  erased.enum.map fun ic =>
    let threshold := if cc < erased.length ∧ cc < ic.1 then max 0 (t0 - d) else t0
    if threshold ≤ ic.2.start then
      { ic.2 with start := max 0 (ic.2.start - d) }
    else ic.2

/-- Timeline::rippleDelete: locate the clip, locate its track from the clip's
`trackId` (both failures precede the snapshot), snapshot, erase the clip slot
recorded in `clipIndex_` from that track, then run the shift loop
(`rippleShift` above, including the post-erase pointer read). -/
def rippleDelete (tl : Timeline) (clipId : String) : Bool × Timeline :=
  match clipIndexOf tl.sequence clipId with
  | none => (false, tl)
  | some pair =>
    let clip := clipAt tl.sequence pair.1 pair.2
    match trackIndexOf tl.sequence clip.trackId with
    | none => (false, tl)
    | some t =>
      let removedDuration := clip.duration
      let tl1 := pushUndo tl
      let erased := (trackAt tl1.sequence t).clips.eraseIdx pair.2
      let shifted := rippleShift erased pair.2 clip.start removedDuration
      let s1 := modifyTrackClips tl1.sequence t (fun _ => shifted)
      (true, { tl1 with sequence := updateDuration s1 })

/-- Timeline::frameAt: scan tracks in declaration order, skip non-Video
tracks, and return info for the first clip whose `[start, endTime]` interval
contains the query time; `none` when no video clip contains it. -/
def frameAt (s : Sequence) (timeSeconds : ℚ) : Option TimelineFrameInfo :=
  s.tracks.findSome? fun track =>
    if track.kind ≠ TrackKind.video then none
    else
      (track.clips.find? fun c =>
        decide (c.start ≤ timeSeconds) && decide (timeSeconds ≤ c.endTime)).map
        fun c => { clipId := c.id, localTime := timeSeconds - c.start,
                   globalTime := timeSeconds }

/-- One mutating entry point of the Timeline surface. -/
inductive Op
  | setMeta (width height : Int) (fps : ℚ) (sampleRate : Int)
  | addTrack (track : Track)
  | updateTrack (track : Track)
  | removeTrack (trackId : String)
  | upsertClip (clip : Clip)
  | moveClip (clipId targetTrackId : String) (newStart : ℚ)
  | trimClip (clipId : String) (dStart dEnd : ℚ)
  | splitClip (clipId : String) (offsetSeconds : ℚ)
  | rippleDelete (clipId : String)

/-- Run one operation; `setSequenceMetadata` returns void in the source and
is reported as success here. -/
def applyOp : Op → Timeline → Bool × Timeline
  | Op.setMeta w h f r, tl => (true, setSequenceMetadata tl w h f r)
  | Op.addTrack track, tl => addTrack tl track
  | Op.updateTrack track, tl => updateTrack tl track
  | Op.removeTrack trackId, tl => removeTrack tl trackId
  | Op.upsertClip clip, tl => upsertClip tl clip
  | Op.moveClip clipId targetTrackId newStart, tl => moveClip tl clipId targetTrackId newStart
  | Op.trimClip clipId dStart dEnd, tl => trimClip tl clipId dStart dEnd
  | Op.splitClip clipId offsetSeconds, tl => splitClip tl clipId offsetSeconds
  | Op.rippleDelete clipId, tl => rippleDelete tl clipId

/-- Timeline states reachable from a fresh Timeline through the public
mutating surface. -/
inductive Reachable : Timeline → Prop
  | init : Reachable Timeline.init
  | step (op : Op) (tl : Timeline) : Reachable tl → Reachable (applyOp op tl).2

/-- A clip list is in the canonical order the sorts establish:
nondecreasing `start`. -/
def SortedByStart (l : List Clip) : Prop :=
  l.Pairwise (fun a b => a.start ≤ b.start)

/-- Every track of the sequence has its clip list sorted by start. -/
def TracksSorted (s : Sequence) : Prop :=
  ∀ tr ∈ s.tracks, SortedByStart tr.clips

/-- The clip ids of the sequence, in track-major order. -/
def clipIds (s : Sequence) : List String :=
  (allClips s).map Clip.id

/-- Data-model invariant 1, first half: track ids are unique. -/
def UniqueTrackIds (s : Sequence) : Prop :=
  (s.tracks.map Track.id).Nodup

/-- Data-model invariant 1, second half: clip ids are unique across the
whole sequence. -/
def UniqueClipIds (s : Sequence) : Prop :=
  (clipIds s).Nodup

/-- The clip's closed `[start, endTime]` interval contains the query time,
the containment test of `Timeline::frameAt`. -/
def ContainsTime (c : Clip) (t : ℚ) : Prop :=
  c.start ≤ t ∧ t ≤ c.endTime

/-- The operations that route through `updateDuration` on success: the five
clip-level operations.  The three track-level operations and the metadata
setter never recompute the cached duration. -/
def IsClipOp : Op → Prop
  | Op.upsertClip _ => True
  | Op.moveClip _ _ _ => True
  | Op.trimClip _ _ _ => True
  | Op.splitClip _ _ => True
  | Op.rippleDelete _ => True
  | _ => False

/-- The second half minted by a split of `clip` at `offsetSeconds`. -/
def splitSecondHalf (clip : Clip) (offsetSeconds : ℚ) : Clip :=
  { clip with id := clip.id ++ "_b",
              start := clip.start + offsetSeconds,
              trimStart := clip.trimStart + offsetSeconds,
              duration := clip.duration - offsetSeconds }

/-- The first half written back by a split of `clip` at `offsetSeconds`. -/
def splitFirstHalf (clip : Clip) (offsetSeconds : ℚ) : Clip :=
  { clip with duration := offsetSeconds,
              trimEnd := clip.trimEnd + (clip.duration - offsetSeconds) }

instance : IsTotal Clip (fun a b : Clip => a.start ≤ b.start) :=
  ⟨fun a b => le_total a.start b.start⟩

instance : IsTrans Clip (fun a b : Clip => a.start ≤ b.start) :=
  ⟨fun _ _ _ hab hbc => le_trans hab hbc⟩

instance (l : List Clip) : Decidable (SortedByStart l) := by
  unfold SortedByStart
  infer_instance

instance (s : Sequence) : Decidable (TracksSorted s) := by
  unfold TracksSorted
  infer_instance

instance (c : Clip) (t : ℚ) : Decidable (ContainsTime c t) := by
  unfold ContainsTime
  infer_instance

instance (s : Sequence) : Decidable (UniqueTrackIds s) := by
  unfold UniqueTrackIds
  infer_instance

instance (s : Sequence) : Decidable (UniqueClipIds s) := by
  unfold UniqueClipIds
  infer_instance

instance (op : Op) : Decidable (IsClipOp op) :=
  match op with
  | Op.setMeta _ _ _ _ => isFalse (fun h => h)
  | Op.addTrack _ => isFalse (fun h => h)
  | Op.updateTrack _ => isFalse (fun h => h)
  | Op.removeTrack _ => isFalse (fun h => h)
  | Op.upsertClip _ => isTrue trivial
  | Op.moveClip _ _ _ => isTrue trivial
  | Op.trimClip _ _ _ => isTrue trivial
  | Op.splitClip _ _ => isTrue trivial
  | Op.rippleDelete _ => isTrue trivial

/-- The one non-atomic failure path: a splitClip whose early checks pass but
whose clip carries a `trackId` resolving to no track (reachable only after
updateTrack installed such a clip).  Everything else fails atomically. -/
def splitGhostCase (op : Op) (tl : Timeline) : Bool :=
  match op with
  | Op.splitClip clipId offsetSeconds =>
    match clipIndexOf tl.sequence clipId with
    | none => false
    | some pair =>
      !(decide (offsetSeconds ≤ 0) ||
        decide ((clipAt tl.sequence pair.1 pair.2).duration ≤ offsetSeconds)) &&
      (trackIndexOf tl.sequence (clipAt tl.sequence pair.1 pair.2).trackId).isNone
  | _ => false

/-- The upserted clip either is new or already lives in the track its
`trackId` names; in the remaining (cross-track) case upsertClip writes into
one track but re-sorts another. -/
def upsertStaysInTrack (tl : Timeline) (c : Clip) : Bool :=
  match clipIndexOf tl.sequence c.id with
  | none => true
  | some pair => trackIndexOf tl.sequence c.trackId = some pair.1

/-- The operation introduces no clip id of its own choosing: clip-level
operations qualify, splitClip only when the minted id is fresh, and the
track-installing operations only with an empty clip list. -/
def safeClipIdOp (op : Op) (tl : Timeline) : Bool :=
  match op with
  | Op.setMeta _ _ _ _ => true
  | Op.addTrack track => track.clips.isEmpty
  | Op.updateTrack track => track.clips.isEmpty
  | Op.removeTrack _ => true
  | Op.upsertClip _ => true
  | Op.moveClip _ _ _ => true
  | Op.trimClip _ _ _ => true
  | Op.splitClip clipId _ => !(decide ((clipId ++ "_b") ∈ clipIds tl.sequence))
  | Op.rippleDelete _ => true

/-- The cached duration agrees with the clips: it is the clamped-at-zero
maximum of all endTimes (0 when there are no clips or all endTimes are
negative). -/
def DurationCorrect (s : Sequence) : Prop :=
  s.duration = seqMaxEnd s ∧ 0 ≤ s.duration ∧
  (∀ c ∈ allClips s, c.endTime ≤ s.duration) ∧
  (s.duration = 0 ∨ ∃ c ∈ allClips s, s.duration = c.endTime)

section Fixtures

/-- A track with default flags (video kind, non-overlap), as the concrete
spec scenarios build them. -/
def mkTrack (i : String) : Track :=
  { id := i }

/-- A track with the given clips and default flags. -/
def trackWith (i : String) (clips : List Clip) : Track :=
  { id := i, clips := clips }

/-- A clip with default media/trims, as the concrete spec scenarios build
them. -/
def mkClip (i t : String) (s d : ℚ) : Clip :=
  { id := i, trackId := t, start := s, duration := d }

/-- A sequence with the given cached duration and tracks, default metadata. -/
def seqOf (d : ℚ) (tracks : List Track) : Sequence :=
  { duration := d, tracks := tracks }

/-- The default-constructed sequence. -/
def seq0 : Sequence := {}

/-- The state reached by addTrack(v1) from a fresh timeline. -/
def tlV1 : Timeline :=
  { sequence := seqOf 0 [mkTrack "v1"], undoStack := [seq0] }

/-- Scenario S1 state, reached by addTrack(v1); upsertClip(a: v1, 0, 5). -/
def tlS1 : Timeline :=
  { sequence := seqOf 5 [trackWith "v1" [mkClip "a" "v1" 0 5]],
    undoStack := [seq0, seqOf 0 [mkTrack "v1"]] }

/-- The state reached by addTrack(v1); addTrack(v2). -/
def tlV12 : Timeline :=
  { sequence := seqOf 0 [mkTrack "v1", mkTrack "v2"],
    undoStack := [seq0, seqOf 0 [mkTrack "v1"]] }

/-- The state reached from `tlV12` by upsertClip(p: v1, 0, 2). -/
def tlS5p : Timeline :=
  { sequence := seqOf 2 [trackWith "v1" [mkClip "p" "v1" 0 2], mkTrack "v2"],
    undoStack := [seq0, seqOf 0 [mkTrack "v1"], seqOf 0 [mkTrack "v1", mkTrack "v2"]] }

/-- Scenario S5 state: non-overlap tracks v1 (clip p(0,2)) and v2 (clip
q(1,2)), reached from `tlS5p` by upsertClip(q: v2, 1, 2). -/
def tlS5 : Timeline :=
  { sequence := seqOf 3 [trackWith "v1" [mkClip "p" "v1" 0 2],
                         trackWith "v2" [mkClip "q" "v2" 1 2]],
    undoStack := [seq0, seqOf 0 [mkTrack "v1"], seqOf 0 [mkTrack "v1", mkTrack "v2"],
                  seqOf 2 [trackWith "v1" [mkClip "p" "v1" 0 2], mkTrack "v2"]] }

/-- The state reached from `tlV12` by upsertClip(a: v1, 0, 5). -/
def tlCrossA : Timeline :=
  { sequence := seqOf 5 [trackWith "v1" [mkClip "a" "v1" 0 5], mkTrack "v2"],
    undoStack := [seq0, seqOf 0 [mkTrack "v1"], seqOf 0 [mkTrack "v1", mkTrack "v2"]] }

/-- Cross-track upsert state: v1 holds a(0,5), v2 holds x(10,2); reached
from `tlCrossA` by upsertClip(x: v2, 10, 2). -/
def tlCross : Timeline :=
  { sequence := seqOf 12 [trackWith "v1" [mkClip "a" "v1" 0 5],
                          trackWith "v2" [mkClip "x" "v2" 10 2]],
    undoStack := [seq0, seqOf 0 [mkTrack "v1"], seqOf 0 [mkTrack "v1", mkTrack "v2"],
                  seqOf 5 [trackWith "v1" [mkClip "a" "v1" 0 5], mkTrack "v2"]] }

/-- A track installed wholesale by updateTrack whose clips a(5,1) and b(5,2)
share a start (legal: updateTrack never validates), followed by c(7,1). -/
def tieTrack : Track :=
  trackWith "v1" [mkClip "a" "v1" 5 1, mkClip "b" "v1" 5 2, mkClip "c" "v1" 7 1]

/-- State with the tied clips installed, reached from `tlV1` by
updateTrack(tieTrack).  Note updateTrack recomputes no duration. -/
def tlTie : Timeline :=
  { sequence := seqOf 0 [tieTrack], undoStack := [seq0, seqOf 0 [mkTrack "v1"]] }

/-- A track installed wholesale by updateTrack containing a clip whose
`trackId` names no track (legal: updateTrack takes the caller clips
verbatim). -/
def ghostTrack : Track :=
  trackWith "v1" [mkClip "c" "ghost" 0 5]

/-- State with the ghost-trackId clip installed, reached from `tlV1` by
updateTrack(ghostTrack). -/
def tlGhost : Timeline :=
  { sequence := seqOf 0 [ghostTrack], undoStack := [seq0, seqOf 0 [mkTrack "v1"]] }

/-- The state reached from `tlV1` by upsertClip(a: v1, 0, 1). -/
def tlTwoA : Timeline :=
  { sequence := seqOf 1 [trackWith "v1" [mkClip "a" "v1" 0 1]],
    undoStack := [seq0, seqOf 0 [mkTrack "v1"]] }

/-- State with clips a(0,1) and b(2,1) on non-overlap track v1, reached by
addTrack(v1); upsertClip(a); upsertClip(b). -/
def tlTwo : Timeline :=
  { sequence := seqOf 3 [trackWith "v1" [mkClip "a" "v1" 0 1, mkClip "b" "v1" 2 1]],
    undoStack := [seq0, seqOf 0 [mkTrack "v1"],
                  seqOf 1 [trackWith "v1" [mkClip "a" "v1" 0 1]]] }

/-- The state reached from `tlV1` by upsertClip(a: v1, 0, 2). -/
def tlSuffixA : Timeline :=
  { sequence := seqOf 2 [trackWith "v1" [mkClip "a" "v1" 0 2]],
    undoStack := [seq0, seqOf 0 [mkTrack "v1"]] }

/-- State with clips a(0,2) and a_b(3,1) on track v1: splitting a will mint
the already-taken id a_b.  Reached by addTrack(v1); upsertClip(a);
upsertClip(a_b). -/
def tlSuffix : Timeline :=
  { sequence := seqOf 4 [trackWith "v1" [mkClip "a" "v1" 0 2, mkClip "a_b" "v1" 3 1]],
    undoStack := [seq0, seqOf 0 [mkTrack "v1"],
                  seqOf 2 [trackWith "v1" [mkClip "a" "v1" 0 2]]] }

/-- Scenario S4 state: clip c(start 0, duration 4) on track v1, reached by
addTrack(v1); upsertClip(c). -/
def tlS4 : Timeline :=
  { sequence := seqOf 4 [trackWith "v1" [mkClip "c" "v1" 0 4]],
    undoStack := [seq0, seqOf 0 [mkTrack "v1"]] }

end Fixtures

section IndexLemmas

/-- A `some` answer of `lastIdxWith` points at a matching element. -/
theorem lastIdxWith_some {α : Type} {p : α → Bool} :
    ∀ {l : List α} {i : Nat}, lastIdxWith p l = some i →
      ∃ a, l.get? i = some a ∧ p a = true := by
  intro l
  induction l with
  | nil => intro i h; simp [lastIdxWith] at h
  | cons a l ih =>
    intro i h
    rw [lastIdxWith] at h
    cases hl : lastIdxWith p l with
    | some j =>
      rw [hl] at h
      cases h
      obtain ⟨b, hb, hpb⟩ := ih hl
      exact ⟨b, by simpa using hb, hpb⟩
    | none =>
      rw [hl] at h
      by_cases hp : p a
      · rw [if_pos hp] at h
        cases h
        exact ⟨a, rfl, hp⟩
      · rw [if_neg hp] at h
        cases h

/-- `lastIdxWith` answers `none` exactly when nothing matches. -/
theorem lastIdxWith_none {α : Type} {p : α → Bool} :
    ∀ {l : List α}, lastIdxWith p l = none ↔ ∀ a ∈ l, p a = false := by
  intro l
  induction l with
  | nil => simp [lastIdxWith]
  | cons a l ih =>
    constructor
    · intro h
      rw [lastIdxWith] at h
      cases hl : lastIdxWith p l with
      | some j => rw [hl] at h; cases h
      | none =>
        rw [hl] at h
        by_cases hp : p a
        · rw [if_pos hp] at h; cases h
        · intro b hb
          rcases List.mem_cons.mp hb with rfl | hbl
          · exact Bool.eq_false_iff.mpr hp
          · exact ih.mp hl b hbl
    · intro h
      rw [lastIdxWith, ih.mpr fun b hb => h b (List.mem_cons_of_mem a hb)]
      simp [h a (List.mem_cons_self a l)]

/-- A `some` answer of `trackIndexOf` points at a track with the queried id. -/
theorem trackIndexOf_some {s : Sequence} {tid : String} {t : Nat}
    (h : trackIndexOf s tid = some t) :
    ∃ tr, s.tracks.get? t = some tr ∧ tr.id = tid := by
  obtain ⟨tr, htr, hp⟩ := lastIdxWith_some h
  exact ⟨tr, htr, by simpa using hp⟩

/-- `trackIndexOf` answers `none` exactly when no track carries the id. -/
theorem trackIndexOf_none {s : Sequence} {tid : String} :
    trackIndexOf s tid = none ↔ ∀ tr ∈ s.tracks, tr.id ≠ tid := by
  unfold trackIndexOf
  rw [lastIdxWith_none]
  constructor
  · intro h tr htr
    simpa using h tr htr
  · intro h tr htr
    simpa using h tr htr

/-- A `some` answer of `clipIndexGo` points at a clip with the queried id. -/
theorem clipIndexGo_some {cid : String} :
    ∀ {tracks : List Track} {t c : Nat}, clipIndexGo cid tracks = some (t, c) →
      ∃ tr cl, tracks.get? t = some tr ∧ tr.clips.get? c = some cl ∧ cl.id = cid := by
  intro tracks
  induction tracks with
  | nil => intro t c h; simp [clipIndexGo] at h
  | cons tr rest ih =>
    intro t c h
    rw [clipIndexGo] at h
    cases hr : clipIndexGo cid rest with
    | some tc =>
      rw [hr] at h
      cases h
      obtain ⟨tr2, cl, htr2, hcl, hid⟩ := ih (by rw [hr])
      exact ⟨tr2, cl, by simpa using htr2, hcl, hid⟩
    | none =>
      rw [hr] at h
      cases hl : lastIdxWith (fun cl => cl.id = cid) tr.clips with
      | some j =>
        rw [hl] at h
        cases h
        obtain ⟨cl, hcl, hp⟩ := lastIdxWith_some hl
        exact ⟨tr, cl, rfl, hcl, by simpa using hp⟩
      | none => rw [hl] at h; cases h

/-- `clipIndexGo` answers `none` exactly when no clip carries the id. -/
theorem clipIndexGo_none {cid : String} :
    ∀ {tracks : List Track}, clipIndexGo cid tracks = none ↔
      ∀ tr ∈ tracks, ∀ cl ∈ tr.clips, cl.id ≠ cid := by
  intro tracks
  induction tracks with
  | nil => simp [clipIndexGo]
  | cons tr rest ih =>
    constructor
    · intro h
      rw [clipIndexGo] at h
      cases hr : clipIndexGo cid rest with
      | some tc => rw [hr] at h; cases h
      | none =>
        rw [hr] at h
        cases hl : lastIdxWith (fun cl => cl.id = cid) tr.clips with
        | some j => rw [hl] at h; cases h
        | none =>
          intro tr2 htr2 cl hcl
          rcases List.mem_cons.mp htr2 with rfl | htr2
          · have := lastIdxWith_none.mp hl cl hcl
            simpa using this
          · exact ih.mp hr tr2 htr2 cl hcl
    · intro h
      have h1 : clipIndexGo cid rest = none :=
        ih.mpr fun tr2 htr2 => h tr2 (List.mem_cons_of_mem tr htr2)
      have h2 : lastIdxWith (fun cl => cl.id = cid) tr.clips = none := by
        rw [lastIdxWith_none]
        intro cl hcl
        simpa using h tr (List.mem_cons_self tr rest) cl hcl
      rw [clipIndexGo, h1, h2]
      rfl

/-- A `some` answer of `clipIndexOf` points at a clip with the queried id. -/
theorem clipIndexOf_some {s : Sequence} {cid : String} {t c : Nat}
    (h : clipIndexOf s cid = some (t, c)) :
    ∃ tr cl, s.tracks.get? t = some tr ∧ tr.clips.get? c = some cl ∧ cl.id = cid :=
  clipIndexGo_some h

/-- `clipIndexOf` answers `none` exactly when no clip carries the id. -/
theorem clipIndexOf_none {s : Sequence} {cid : String} :
    clipIndexOf s cid = none ↔ ∀ tr ∈ s.tracks, ∀ cl ∈ tr.clips, cl.id ≠ cid :=
  clipIndexGo_none

end IndexLemmas

section SurgeryLemmas

theorem listModify_of_get? {α : Type} {l : List α} {i : Nat} {a : α}
    (h : l.get? i = some a) (f : α → α) : listModify l i f = l.set i (f a) := by
  unfold listModify
  rw [h]

theorem listModify_out {α : Type} {l : List α} {i : Nat}
    (h : l.get? i = none) (f : α → α) : listModify l i f = l := by
  unfold listModify
  rw [h]

theorem mem_listModify {α : Type} {l : List α} {i : Nat} {f : α → α} {b : α}
    (h : b ∈ listModify l i f) : b ∈ l ∨ ∃ a, l.get? i = some a ∧ b = f a := by
  unfold listModify at h
  cases hg : l.get? i with
  | none => rw [hg] at h; exact Or.inl h
  | some a =>
    rw [hg] at h
    rcases List.mem_or_eq_of_mem_set h with hb | hb
    · exact Or.inl hb
    · exact Or.inr ⟨a, rfl, hb⟩

/-- Splitting a list around a replaced position, together with the matching
split of the unmodified list. -/
theorem flatMap_set_decomp {α β : Type} (g : α → List β) :
    ∀ {l : List α} {i : Nat} {a : α}, l.get? i = some a → ∀ b : α,
      (l.set i b).flatMap g = (l.take i).flatMap g ++ (g b ++ (l.drop (i + 1)).flatMap g) ∧
      l.flatMap g = (l.take i).flatMap g ++ (g a ++ (l.drop (i + 1)).flatMap g) := by
  intro l
  induction l with
  | nil => intro i a h b; simp at h
  | cons x xs ih =>
    intro i a h b
    cases i with
    | zero =>
      simp at h
      subst h
      simp
    | succ j =>
      simp only [List.get?_cons_succ] at h
      have hd := ih h b
      constructor
      · simp only [List.set_cons_succ, List.flatMap_cons, List.take_succ_cons,
          List.drop_succ_cons, hd.1]
        simp
      · simp only [List.flatMap_cons, List.take_succ_cons, List.drop_succ_cons]
        conv_lhs => rw [hd.2]
        simp

/-- `allClips` of a sequence whose track `t` got its clip list rewritten,
split around that track; paired with the same split of the original. -/
theorem allClips_modifyTrackClips {s : Sequence} {t : Nat} {tr : Track}
    (h : s.tracks.get? t = some tr) (f : List Clip → List Clip) :
    allClips (modifyTrackClips s t f) =
      (s.tracks.take t).flatMap (fun tr => tr.clips) ++
        (f tr.clips ++ (s.tracks.drop (t + 1)).flatMap (fun tr => tr.clips)) ∧
    allClips s =
      (s.tracks.take t).flatMap (fun tr => tr.clips) ++
        (tr.clips ++ (s.tracks.drop (t + 1)).flatMap (fun tr => tr.clips)) := by
  have hmod : listModify s.tracks t (fun tr => { tr with clips := f tr.clips }) =
      s.tracks.set t { tr with clips := f tr.clips } := listModify_of_get? h _
  have hd := flatMap_set_decomp (fun tr : Track => tr.clips) h { tr with clips := f tr.clips }
  constructor
  · show (listModify s.tracks t _).flatMap (fun tr => tr.clips) = _
    rw [hmod, hd.1]
  · exact hd.2

theorem get?_modifyTrackClips_self {s : Sequence} {t : Nat} {tr : Track}
    (h : s.tracks.get? t = some tr) (f : List Clip → List Clip) :
    (modifyTrackClips s t f).tracks.get? t = some { tr with clips := f tr.clips } := by
  show (listModify s.tracks t _).get? t = _
  rw [listModify_of_get? h]
  exact List.get?_set_eq_of_lt _ (List.get?_eq_some.mp h).1

theorem get?_modifyTrackClips_ne {s : Sequence} {t j : Nat} (hne : t ≠ j)
    (f : List Clip → List Clip) :
    (modifyTrackClips s t f).tracks.get? j = s.tracks.get? j := by
  show (listModify s.tracks t _).get? j = _
  unfold listModify
  cases hg : s.tracks.get? t with
  | none => rfl
  | some tr => exact List.get?_set_ne _ _ hne

theorem trackAt_of_get? {s : Sequence} {t : Nat} {tr : Track}
    (h : s.tracks.get? t = some tr) : trackAt s t = tr := by
  unfold trackAt
  rw [List.getD_eq_get?, h]
  rfl

theorem clipAt_of_get? {s : Sequence} {t c : Nat} {tr : Track} {cl : Clip}
    (ht : s.tracks.get? t = some tr) (hc : tr.clips.get? c = some cl) :
    clipAt s t c = cl := by
  unfold clipAt
  rw [trackAt_of_get? ht, List.getD_eq_get?, hc]
  rfl

end SurgeryLemmas

section MaxLemmas

theorem foldl_max_le_init :
    ∀ (l : List Clip) (a : ℚ), a ≤ l.foldl (fun m c => max m c.endTime) a := by
  intro l
  induction l with
  | nil => intro a; simp
  | cons c l ih =>
    intro a
    calc a ≤ max a c.endTime := le_max_left _ _
    _ ≤ _ := ih (max a c.endTime)

theorem foldl_max_mem_le :
    ∀ (l : List Clip) (a : ℚ) (c : Clip), c ∈ l →
      c.endTime ≤ l.foldl (fun m c => max m c.endTime) a := by
  intro l
  induction l with
  | nil => intro a c h; exact absurd h (List.not_mem_nil c)
  | cons d l ih =>
    intro a c h
    rcases List.mem_cons.mp h with rfl | h
    · calc c.endTime ≤ max a c.endTime := le_max_right _ _
      _ ≤ _ := foldl_max_le_init l _
    · exact ih _ c h

theorem foldl_max_cases :
    ∀ (l : List Clip) (a : ℚ), l.foldl (fun m c => max m c.endTime) a = a ∨
      ∃ c ∈ l, l.foldl (fun m c => max m c.endTime) a = c.endTime := by
  intro l
  induction l with
  | nil => intro a; exact Or.inl rfl
  | cons d l ih =>
    intro a
    rcases ih (max a d.endTime) with h | ⟨c, hc, h⟩
    · rcases max_choice a d.endTime with hm | hm
      · left
        simpa [hm] using h
      · right
        exact ⟨d, List.mem_cons_self d l, by simpa [hm] using h⟩
    · exact Or.inr ⟨c, List.mem_cons_of_mem d hc, h⟩

theorem seqMaxEnd_nonneg (s : Sequence) : 0 ≤ seqMaxEnd s :=
  foldl_max_le_init (allClips s) 0

theorem le_seqMaxEnd {s : Sequence} {c : Clip} (h : c ∈ allClips s) :
    c.endTime ≤ seqMaxEnd s :=
  foldl_max_mem_le (allClips s) 0 c h

theorem seqMaxEnd_cases (s : Sequence) :
    seqMaxEnd s = 0 ∨ ∃ c ∈ allClips s, seqMaxEnd s = c.endTime :=
  foldl_max_cases (allClips s) 0

theorem seqMaxEnd_duration_irrel (s : Sequence) (x : ℚ) :
    seqMaxEnd { s with duration := x } = seqMaxEnd s := rfl

theorem updateDuration_duration (s : Sequence) :
    (updateDuration s).duration = seqMaxEnd (updateDuration s) := rfl

end MaxLemmas

section PlacementLemmas

/-- One genuinely overlapping, non-ignored clip makes `validatePlacement`
reject on a non-overlap track. -/
theorem validatePlacement_false_of {track : Track} {candidate : Clip}
    {ign : Option Nat} {i : Nat} {ci : Clip}
    (hov : track.allowOverlap = false) (hci : track.clips.get? i = some ci)
    (hne : ign ≠ some i) (hoverlap : clipOverlaps ci candidate = true) :
    validatePlacement track candidate ign = false := by
  unfold validatePlacement
  rw [hov]
  rw [if_neg (by simp)]
  apply Bool.eq_false_iff.mpr
  intro hall
  rw [List.all_eq_true] at hall
  have hmem : (i, ci) ∈ track.clips.enum := List.mk_mem_enum_iff_get?.mpr (by simpa using hci)
  have hic := hall (i, ci) hmem
  simp only [hoverlap, Bool.not_true, Bool.or_false, decide_eq_true_eq] at hic
  exact hne hic

/-- On a non-overlap track, validation succeeds exactly when every
non-ignored slot is overlap-free. -/
theorem validatePlacement_true_iff {track : Track} {candidate : Clip}
    {ign : Option Nat} (hov : track.allowOverlap = false) :
    validatePlacement track candidate ign = true ↔
      ∀ i ci, track.clips.get? i = some ci → ign ≠ some i →
        clipOverlaps ci candidate = false := by
  unfold validatePlacement
  rw [hov]
  rw [if_neg (by simp)]
  constructor
  · intro hall i ci hci hne
    rw [List.all_eq_true] at hall
    have hmem : (i, ci) ∈ track.clips.enum := List.mk_mem_enum_iff_get?.mpr (by simpa using hci)
    have hic := hall (i, ci) hmem
    rcases Bool.or_eq_true_iff.mp hic with h | h
    · exact absurd (by simpa using h) hne
    · simpa using h
  · intro h
    rw [List.all_eq_true]
    intro ic hic
    rw [List.mem_enum_iff_get?] at hic
    by_cases hig : ign = some ic.1
    · simp [hig]
    · have hfalse := h ic.1 ic.2 (by simpa using hic) hig
      simp [hfalse]

end PlacementLemmas

section SortLemmas

theorem sortClipsByStart_sorted (l : List Clip) : SortedByStart (sortClipsByStart l) :=
  List.sorted_insertionSort _ l

theorem sortClipsByStart_perm (l : List Clip) : (sortClipsByStart l).Perm l :=
  List.perm_insertionSort _ l

end SortLemmas

section EquationLemmas

theorem pushUndo_sequence (tl : Timeline) : (pushUndo tl).sequence = tl.sequence := rfl

theorem modifyTrackClips_duration (s : Sequence) (t : Nat) (f : List Clip → List Clip) :
    (modifyTrackClips s t f).duration = s.duration := rfl

theorem addTrack_fail {tl : Timeline} {track : Track}
    (h : (trackIndexOf tl.sequence track.id).isSome) : addTrack tl track = (false, tl) := by
  simp [addTrack, h]

theorem addTrack_succ {tl : Timeline} {track : Track}
    (h : trackIndexOf tl.sequence track.id = none) :
    addTrack tl track = (true, withSeq (pushUndo tl)
      ({ tl.sequence with tracks := tl.sequence.tracks ++ [track] })) := by
  simp [addTrack, h, pushUndo_sequence, withSeq]

theorem updateTrack_fail {tl : Timeline} {track : Track}
    (h : trackIndexOf tl.sequence track.id = none) : updateTrack tl track = (false, tl) := by
  simp [updateTrack, h]

theorem updateTrack_succ {tl : Timeline} {track : Track} {t : Nat}
    (h : trackIndexOf tl.sequence track.id = some t) :
    updateTrack tl track = (true, withSeq (pushUndo tl)
      ({ tl.sequence with tracks := tl.sequence.tracks.set t track })) := by
  simp [updateTrack, h, pushUndo_sequence, withSeq]

theorem removeTrack_fail {tl : Timeline} {trackId : String}
    (h : trackIndexOf tl.sequence trackId = none) : removeTrack tl trackId = (false, tl) := by
  simp [removeTrack, h]

theorem removeTrack_succ {tl : Timeline} {trackId : String} {t : Nat}
    (h : trackIndexOf tl.sequence trackId = some t) :
    removeTrack tl trackId = (true, withSeq (pushUndo tl)
      ({ tl.sequence with tracks := tl.sequence.tracks.eraseIdx t })) := by
  simp [removeTrack, h, pushUndo_sequence, withSeq]

theorem upsertClip_fail_noTrack {tl : Timeline} {clip : Clip}
    (h : trackIndexOf tl.sequence clip.trackId = none) : upsertClip tl clip = (false, tl) := by
  simp [upsertClip, h]

theorem upsertClip_fail_new {tl : Timeline} {clip : Clip} {tIdx : Nat}
    (htr : trackIndexOf tl.sequence clip.trackId = some tIdx)
    (hci : clipIndexOf tl.sequence clip.id = none)
    (hval : validatePlacement (trackAt tl.sequence tIdx) clip none = false) :
    upsertClip tl clip = (false, tl) := by
  simp [upsertClip, htr, hci, hval]

theorem upsertClip_succ_new {tl : Timeline} {clip : Clip} {tIdx : Nat}
    (htr : trackIndexOf tl.sequence clip.trackId = some tIdx)
    (hci : clipIndexOf tl.sequence clip.id = none)
    (hval : validatePlacement (trackAt tl.sequence tIdx) clip none = true) :
    upsertClip tl clip = (true, withSeq (pushUndo tl)
      (updateDuration (sortTrackAt
        (modifyTrackClips tl.sequence tIdx (fun clips => clips ++ [clip])) tIdx))) := by
  simp [upsertClip, htr, hci, hval, pushUndo_sequence, withSeq]

theorem upsertClip_fail_existing {tl : Timeline} {clip : Clip} {tIdx : Nat}
    {pair : Nat × Nat}
    (htr : trackIndexOf tl.sequence clip.trackId = some tIdx)
    (hci : clipIndexOf tl.sequence clip.id = some pair)
    (hval : validatePlacement (trackAt tl.sequence tIdx) clip (some pair.2) = false) :
    upsertClip tl clip = (false, tl) := by
  simp [upsertClip, htr, hci, hval]

theorem upsertClip_succ_existing {tl : Timeline} {clip : Clip} {tIdx : Nat}
    {pair : Nat × Nat}
    (htr : trackIndexOf tl.sequence clip.trackId = some tIdx)
    (hci : clipIndexOf tl.sequence clip.id = some pair)
    (hval : validatePlacement (trackAt tl.sequence tIdx) clip (some pair.2) = true) :
    upsertClip tl clip = (true, withSeq (pushUndo tl)
      (updateDuration (sortTrackAt (setClipAt tl.sequence pair.1 pair.2 clip) tIdx))) := by
  simp [upsertClip, htr, hci, hval, pushUndo_sequence, withSeq]

theorem moveClip_fail_noClip {tl : Timeline} {clipId targetTrackId : String} {newStart : ℚ}
    (h : clipIndexOf tl.sequence clipId = none) :
    moveClip tl clipId targetTrackId newStart = (false, tl) := by
  simp [moveClip, h]

theorem moveClip_fail_noTrack {tl : Timeline} {clipId targetTrackId : String} {newStart : ℚ}
    (h : trackIndexOf tl.sequence targetTrackId = none) :
    moveClip tl clipId targetTrackId newStart = (false, tl) := by
  unfold moveClip
  cases hci : clipIndexOf tl.sequence clipId <;> simp [h]

theorem moveClip_fail_invalid {tl : Timeline} {clipId targetTrackId : String} {newStart : ℚ}
    {pair : Nat × Nat} {tt : Nat}
    (hci : clipIndexOf tl.sequence clipId = some pair)
    (htr : trackIndexOf tl.sequence targetTrackId = some tt)
    (hval : validatePlacement (trackAt tl.sequence tt)
      { clipAt tl.sequence pair.1 pair.2 with
          trackId := targetTrackId, start := newStart } none = false) :
    moveClip tl clipId targetTrackId newStart = (false, tl) := by
  simp [moveClip, hci, htr, hval]

theorem moveClip_succ {tl : Timeline} {clipId targetTrackId : String} {newStart : ℚ}
    {pair : Nat × Nat} {tt : Nat}
    (hci : clipIndexOf tl.sequence clipId = some pair)
    (htr : trackIndexOf tl.sequence targetTrackId = some tt)
    (hval : validatePlacement (trackAt tl.sequence tt)
      { clipAt tl.sequence pair.1 pair.2 with
          trackId := targetTrackId, start := newStart } none = true) :
    moveClip tl clipId targetTrackId newStart = (true, withSeq (pushUndo tl)
      (updateDuration (setClipAt tl.sequence pair.1 pair.2
        { clipAt tl.sequence pair.1 pair.2 with
            trackId := targetTrackId, start := newStart }))) := by
  simp [moveClip, hci, htr, hval, pushUndo_sequence, withSeq]

theorem trimClip_fail_noClip {tl : Timeline} {clipId : String} {dStart dEnd : ℚ}
    (h : clipIndexOf tl.sequence clipId = none) :
    trimClip tl clipId dStart dEnd = (false, tl) := by
  simp [trimClip, h]

theorem trimClip_fail_zero {tl : Timeline} {clipId : String} {dStart dEnd : ℚ}
    {pair : Nat × Nat}
    (hci : clipIndexOf tl.sequence clipId = some pair)
    (hd : max 0 ((clipAt tl.sequence pair.1 pair.2).duration - dStart - dEnd) ≤ 0) :
    trimClip tl clipId dStart dEnd = (false, tl) := by
  simp [trimClip, hci, hd]

theorem trimClip_succ {tl : Timeline} {clipId : String} {dStart dEnd : ℚ}
    {pair : Nat × Nat}
    (hci : clipIndexOf tl.sequence clipId = some pair)
    (hd : ¬ max 0 ((clipAt tl.sequence pair.1 pair.2).duration - dStart - dEnd) ≤ 0) :
    trimClip tl clipId dStart dEnd = (true, withSeq (pushUndo tl)
      (updateDuration (setClipAt tl.sequence pair.1 pair.2
        { clipAt tl.sequence pair.1 pair.2 with
            trimStart := (clipAt tl.sequence pair.1 pair.2).trimStart + dStart,
            trimEnd := (clipAt tl.sequence pair.1 pair.2).trimEnd + dEnd,
            duration := max 0 ((clipAt tl.sequence pair.1 pair.2).duration
              - dStart - dEnd) }))) := by
  simp [trimClip, hci, hd, pushUndo_sequence, withSeq]

theorem splitClip_fail_noClip {tl : Timeline} {clipId : String} {offsetSeconds : ℚ}
    (h : clipIndexOf tl.sequence clipId = none) :
    splitClip tl clipId offsetSeconds = (false, tl) := by
  simp [splitClip, h]

theorem splitClip_fail_offset {tl : Timeline} {clipId : String} {offsetSeconds : ℚ}
    {pair : Nat × Nat}
    (hci : clipIndexOf tl.sequence clipId = some pair)
    (hoff : offsetSeconds ≤ 0 ∨ (clipAt tl.sequence pair.1 pair.2).duration ≤ offsetSeconds) :
    splitClip tl clipId offsetSeconds = (false, tl) := by
  simp [splitClip, hci, hoff]

theorem splitClip_fail_ghost {tl : Timeline} {clipId : String} {offsetSeconds : ℚ}
    {pair : Nat × Nat}
    (hci : clipIndexOf tl.sequence clipId = some pair)
    (hoff : ¬ (offsetSeconds ≤ 0 ∨ (clipAt tl.sequence pair.1 pair.2).duration ≤ offsetSeconds))
    (hghost : trackIndexOf
      (setClipAt tl.sequence pair.1 pair.2
        (splitFirstHalf (clipAt tl.sequence pair.1 pair.2) offsetSeconds))
      (clipAt tl.sequence pair.1 pair.2).trackId = none) :
    splitClip tl clipId offsetSeconds = (false, withSeq (pushUndo tl)
      (setClipAt tl.sequence pair.1 pair.2
        (splitFirstHalf (clipAt tl.sequence pair.1 pair.2) offsetSeconds))) := by
  simp only [splitClip, hci, if_neg hoff, pushUndo_sequence]
  simp only [splitFirstHalf] at hghost
  rw [hghost]
  simp [withSeq, splitFirstHalf]

theorem splitClip_succ {tl : Timeline} {clipId : String} {offsetSeconds : ℚ}
    {pair : Nat × Nat} {t2 : Nat}
    (hci : clipIndexOf tl.sequence clipId = some pair)
    (hoff : ¬ (offsetSeconds ≤ 0 ∨ (clipAt tl.sequence pair.1 pair.2).duration ≤ offsetSeconds))
    (ht2 : trackIndexOf
      (setClipAt tl.sequence pair.1 pair.2
        (splitFirstHalf (clipAt tl.sequence pair.1 pair.2) offsetSeconds))
      (clipAt tl.sequence pair.1 pair.2).trackId = some t2) :
    splitClip tl clipId offsetSeconds = (true, withSeq (pushUndo tl)
      (updateDuration (sortTrackAt
        (modifyTrackClips
          (setClipAt tl.sequence pair.1 pair.2
            (splitFirstHalf (clipAt tl.sequence pair.1 pair.2) offsetSeconds))
          t2
          (fun clips => clips ++
            [splitSecondHalf (clipAt tl.sequence pair.1 pair.2) offsetSeconds]))
        t2))) := by
  simp only [splitClip, hci, if_neg hoff, pushUndo_sequence]
  simp only [splitFirstHalf] at ht2
  rw [ht2]
  simp [withSeq, splitFirstHalf, splitSecondHalf]

theorem rippleDelete_fail_noClip {tl : Timeline} {clipId : String}
    (h : clipIndexOf tl.sequence clipId = none) : rippleDelete tl clipId = (false, tl) := by
  simp [rippleDelete, h]

theorem rippleDelete_fail_noTrack {tl : Timeline} {clipId : String} {pair : Nat × Nat}
    (hci : clipIndexOf tl.sequence clipId = some pair)
    (htr : trackIndexOf tl.sequence (clipAt tl.sequence pair.1 pair.2).trackId = none) :
    rippleDelete tl clipId = (false, tl) := by
  simp [rippleDelete, hci, htr]

theorem rippleDelete_succ {tl : Timeline} {clipId : String} {pair : Nat × Nat} {t : Nat}
    (hci : clipIndexOf tl.sequence clipId = some pair)
    (htr : trackIndexOf tl.sequence (clipAt tl.sequence pair.1 pair.2).trackId = some t) :
    rippleDelete tl clipId = (true, withSeq (pushUndo tl)
      (updateDuration (modifyTrackClips tl.sequence t (fun _ =>
        rippleShift ((trackAt tl.sequence t).clips.eraseIdx pair.2) pair.2
          (clipAt tl.sequence pair.1 pair.2).start
          (clipAt tl.sequence pair.1 pair.2).duration)))) := by
  simp [rippleDelete, hci, htr, pushUndo_sequence, withSeq]

end EquationLemmas

section MoreSurgeryLemmas

theorem listModify_nil {α : Type} (i : Nat) (g : α → α) :
    listModify ([] : List α) i g = [] := rfl

theorem listModify_cons_zero {α : Type} (a : α) (l : List α) (g : α → α) :
    listModify (a :: l) 0 g = g a :: l := rfl

theorem listModify_cons_succ {α : Type} (a : α) (l : List α) (i : Nat) (g : α → α) :
    listModify (a :: l) (i + 1) g = a :: listModify l i g := by
  cases h : l.get? i with
  | none =>
    have h2 : (a :: l).get? (i + 1) = none := by simpa using h
    rw [listModify_out h, listModify_out h2]
  | some b =>
    have h2 : (a :: l).get? (i + 1) = some b := by simpa using h
    rw [listModify_of_get? h, listModify_of_get? h2, List.set_cons_succ]

/-- A pointwise modification that does not change the tested field leaves
`lastIdxWith` unchanged. -/
theorem lastIdxWith_listModify {α : Type} {p : α → Bool} {g : α → α} :
    ∀ (l : List α) (i : Nat), (∀ a, p (g a) = p a) →
      lastIdxWith p (listModify l i g) = lastIdxWith p l := by
  intro l
  induction l with
  | nil => intro i hg; rw [listModify_nil]
  | cons a l ih =>
    intro i hg
    cases i with
    | zero =>
      rw [listModify_cons_zero]
      show lastIdxWith p (g a :: l) = lastIdxWith p (a :: l)
      rw [lastIdxWith, lastIdxWith]
      rw [hg a]
    | succ j =>
      rw [listModify_cons_succ]
      rw [lastIdxWith, lastIdxWith, ih j hg]

/-- Rewriting a track's clips never changes where a track id resolves. -/
theorem trackIndexOf_modifyTrackClips (s : Sequence) (t : Nat)
    (f : List Clip → List Clip) (tid : String) :
    trackIndexOf (modifyTrackClips s t f) tid = trackIndexOf s tid := by
  show lastIdxWith (fun tr => tr.id = tid)
      (listModify s.tracks t (fun tr => { tr with clips := f tr.clips })) =
    lastIdxWith (fun tr => tr.id = tid) s.tracks
  exact lastIdxWith_listModify s.tracks t (fun a => rfl)

/-- Setting a slot back to the value it already holds is the identity. -/
theorem set_get?_eq {α : Type} :
    ∀ {l : List α} {i : Nat} {a : α}, l.get? i = some a → l.set i a = l := by
  intro l
  induction l with
  | nil => intro i a h; simp at h
  | cons b l ih =>
    intro i a h
    cases i with
    | zero => simp at h; simp [h]
    | succ j =>
      simp only [List.get?_cons_succ] at h
      simp [List.set_cons_succ, ih h]

/-- A pointwise modification that does not change the mapped field leaves the
map unchanged. -/
theorem map_listModify_invariant {α β : Type} {f : α → β} {g : α → α} :
    ∀ (l : List α) (i : Nat), (∀ a, f (g a) = f a) →
      (listModify l i g).map f = l.map f := by
  intro l
  induction l with
  | nil => intro i hg; rw [listModify_nil]
  | cons a l ih =>
    intro i hg
    cases i with
    | zero => rw [listModify_cons_zero]; simp [hg a]
    | succ j => rw [listModify_cons_succ]; simp [ih j hg]

/-- The written clip is what the slot then holds. -/
theorem clipAt_setClipAt {s : Sequence} {t c : Nat} {tr : Track} {cl : Clip}
    (ht : s.tracks.get? t = some tr) (hc : tr.clips.get? c = some cl) (clip : Clip) :
    clipAt (setClipAt s t c clip) t c = clip := by
  unfold setClipAt
  have h1 := get?_modifyTrackClips_self ht (fun clips => clips.set c clip)
  apply clipAt_of_get? h1
  exact List.get?_set_eq_of_lt _ (List.get?_eq_some.mp hc).1

/-- `clipIds` of a track-list modification, split around the touched track,
paired with the same split of the original. -/
theorem clipIds_modifyTrackClips {s : Sequence} {t : Nat} {tr : Track}
    (h : s.tracks.get? t = some tr) (f : List Clip → List Clip) :
    clipIds (modifyTrackClips s t f) =
      ((s.tracks.take t).flatMap (fun tr => tr.clips)).map Clip.id ++
        (((f tr.clips).map Clip.id) ++
          ((s.tracks.drop (t + 1)).flatMap (fun tr => tr.clips)).map Clip.id) ∧
    clipIds s =
      ((s.tracks.take t).flatMap (fun tr => tr.clips)).map Clip.id ++
        ((tr.clips.map Clip.id) ++
          ((s.tracks.drop (t + 1)).flatMap (fun tr => tr.clips)).map Clip.id) := by
  have hd := allClips_modifyTrackClips h f
  unfold clipIds
  rw [hd.1, hd.2]
  simp

/-- Sortedness only reads `start`, so replacing a clip by one with the same
start preserves it. -/
theorem sortedByStart_set {l : List Clip} {i : Nat} {a b : Clip}
    (h : SortedByStart l) (hga : l.get? i = some a) (hstart : b.start = a.start) :
    SortedByStart (l.set i b) := by
  obtain ⟨hil, hia0⟩ := List.get?_eq_some.mp hga
  have hia : l[i] = a := by rw [← hia0]; rfl
  unfold SortedByStart at h ⊢
  rw [List.pairwise_iff_getElem] at h ⊢
  intro x y hx hy hxy
  have hxl : x < l.length := by simpa using hx
  have hyl : y < l.length := by simpa using hy
  rw [List.getElem_set, List.getElem_set]
  by_cases hxi : i = x
  · by_cases hyi : i = y
    · rw [if_pos hxi, if_pos hyi]
    · rw [if_pos hxi, if_neg hyi]
      have hr := h i y hil hyl (by omega)
      rw [hia] at hr
      exact hstart.trans_le hr
  · by_cases hyi : i = y
    · rw [if_neg hxi, if_pos hyi, hstart]
      have hr := h x i hxl hil (by omega)
      rw [hia] at hr
      exact hr
    · rw [if_neg hxi, if_neg hyi]
      exact h x y hxl hyl hxy

/-- Positional form of `TracksSorted`. -/
theorem tracksSorted_iff_get? {s : Sequence} :
    TracksSorted s ↔ ∀ j tr, s.tracks.get? j = some tr → SortedByStart tr.clips := by
  unfold TracksSorted
  constructor
  · intro h j tr hj
    exact h tr (List.get?_mem hj)
  · intro h tr htr
    obtain ⟨j, hj⟩ := List.get_of_mem htr
    exact h j tr (by rw [List.get?_eq_get]; exact congrArg some hj)

end MoreSurgeryLemmas

section ReachabilityOfFixtures

/-- One public mutating call moves between reachable states; phrased so the
successor state can be given literally. -/
theorem reachable_of_step (op : Op) {tl tl2 : Timeline} (h : Reachable tl)
    (heq : applyOp op tl = (true, tl2)) : Reachable tl2 := by
  have hs := Reachable.step op tl h
  rw [heq] at hs
  exact hs

theorem tlV1_reachable : Reachable tlV1 :=
  reachable_of_step (Op.addTrack (mkTrack "v1")) Reachable.init
    (by decide)

theorem tlS1_reachable : Reachable tlS1 :=
  reachable_of_step (Op.upsertClip (mkClip "a" "v1" 0 5)) tlV1_reachable
    (by decide)

theorem tlV12_reachable : Reachable tlV12 :=
  reachable_of_step (Op.addTrack (mkTrack "v2")) tlV1_reachable
    (by decide)

theorem tlS5p_reachable : Reachable tlS5p :=
  reachable_of_step (Op.upsertClip (mkClip "p" "v1" 0 2)) tlV12_reachable (by decide)

theorem tlS5_reachable : Reachable tlS5 :=
  reachable_of_step (Op.upsertClip (mkClip "q" "v2" 1 2)) tlS5p_reachable (by decide)

theorem tlCrossA_reachable : Reachable tlCrossA :=
  reachable_of_step (Op.upsertClip (mkClip "a" "v1" 0 5)) tlV12_reachable (by decide)

theorem tlCross_reachable : Reachable tlCross :=
  reachable_of_step (Op.upsertClip (mkClip "x" "v2" 10 2)) tlCrossA_reachable (by decide)

theorem tlTie_reachable : Reachable tlTie :=
  reachable_of_step (Op.updateTrack tieTrack) tlV1_reachable
    (by decide)

theorem tlGhost_reachable : Reachable tlGhost :=
  reachable_of_step (Op.updateTrack ghostTrack) tlV1_reachable
    (by decide)

theorem tlTwoA_reachable : Reachable tlTwoA :=
  reachable_of_step (Op.upsertClip (mkClip "a" "v1" 0 1)) tlV1_reachable (by decide)

theorem tlTwo_reachable : Reachable tlTwo :=
  reachable_of_step (Op.upsertClip (mkClip "b" "v1" 2 1)) tlTwoA_reachable (by decide)

theorem tlSuffixA_reachable : Reachable tlSuffixA :=
  reachable_of_step (Op.upsertClip (mkClip "a" "v1" 0 2)) tlV1_reachable (by decide)

theorem tlSuffix_reachable : Reachable tlSuffix :=
  reachable_of_step (Op.upsertClip (mkClip "a_b" "v1" 3 1)) tlSuffixA_reachable (by decide)

theorem tlS4_reachable : Reachable tlS4 :=
  reachable_of_step (Op.upsertClip (mkClip "c" "v1" 0 4)) tlV1_reachable
    (by decide)

end ReachabilityOfFixtures

section ClaimC2

/-- C2: the spec says that after a successful moveClip the moved clip is an
element of the target track's clip list, with clipIndex mapping it to the
target track's position, and that every clip's trackId names its containing
track.  The code instead writes the candidate back through the `findClip`
pointer into the clip's ORIGINAL slot and never transfers it between track
vectors: after the spec's own S5 calls, moveClip("p","v2",3) returns true,
track v2 sits at position 1, yet clipIndex maps "p" to (0,0) — track v1 —
and v1's list now holds a clip whose trackId field says "v2". -/
theorem moveClip_leaves_clip_in_source_track :
    Reachable tlS5 ∧
    (moveClip tlS5 "p" "v2" 3).1 = true ∧
    trackIndexOf (moveClip tlS5 "p" "v2" 3).2.sequence "v2" = some 1 ∧
    clipIndexOf (moveClip tlS5 "p" "v2" 3).2.sequence "p" = some (0, 0) ∧
    (∃ tr ∈ (moveClip tlS5 "p" "v2" 3).2.sequence.tracks,
      tr.id = "v1" ∧ ∃ c ∈ tr.clips, c.id = "p" ∧ c.trackId = "v2") :=
  ⟨tlS5_reachable, by decide, by decide, by decide, by decide⟩

end ClaimC2

section ClaimC5

/-- C5: rippleDelete reads the removed clip's start through a pointer into
the vector AFTER the erase, so the shift threshold is the successor clip's
start, not the removed clip's.  In the reachable state `tlTie` (clips
a(5,1), b(5,2), c(7,1) on one track), rippleDelete("b") succeeds with
s = 5, d = 2; the claim requires clip a (pre-call start 5 ≥ 5) to move to
start 3, but the code leaves it at 5 because it compares against c's
start 7. -/
theorem rippleDelete_uses_successor_threshold :
    Reachable tlTie ∧
    (∃ tr ∈ tlTie.sequence.tracks, tr.id = "v1" ∧
      ∃ c ∈ tr.clips, c.id = "b" ∧ c.start = 5 ∧ c.duration = 2) ∧
    (∃ tr ∈ tlTie.sequence.tracks, tr.id = "v1" ∧
      ∃ c ∈ tr.clips, c.id = "a" ∧ c.start = 5) ∧
    (rippleDelete tlTie "b").1 = true ∧
    (∃ tr ∈ (rippleDelete tlTie "b").2.sequence.tracks, tr.id = "v1" ∧
      ∃ c ∈ tr.clips, c.id = "a" ∧ c.start = 5) :=
  ⟨tlTie_reachable, by decide, by decide, by decide, by decide⟩

end ClaimC5

section ClaimC1Counterexample

/-- C1 counterexample: in the reachable state `tlGhost` (updateTrack
installed a clip whose trackId names no track), splitClip("c", 2) returns
false, yet a snapshot has been pushed and the clip's duration/trimEnd have
been rewritten — the sequence is no longer its pre-call value. -/
theorem splitClip_ghost_failure_not_atomic :
    Reachable tlGhost ∧
    (splitClip tlGhost "c" 2).1 = false ∧
    (splitClip tlGhost "c" 2).2.sequence ≠ tlGhost.sequence ∧
    (splitClip tlGhost "c" 2).2.undoStack.length = tlGhost.undoStack.length + 1 :=
  ⟨tlGhost_reachable, by decide, by decide, by decide⟩

end ClaimC1Counterexample

section ClaimC3Counterexample

/-- C3 counterexample: removeTrack never recomputes the cached duration.
From the reachable S1 state (duration 5), removeTrack("v1") succeeds and
leaves no clips at all, yet duration stays 5 instead of the claimed 0. -/
theorem removeTrack_leaves_duration_stale :
    Reachable tlS1 ∧
    (removeTrack tlS1 "v1").1 = true ∧
    allClips (removeTrack tlS1 "v1").2.sequence = [] ∧
    (removeTrack tlS1 "v1").2.sequence.duration = 5 :=
  ⟨tlS1_reachable, by decide, by decide, by decide⟩

end ClaimC3Counterexample

section ClaimC8Counterexample

/-- C8 counterexample: trimClip accepts arguments of any sign and only
checks that the resulting duration stays positive, so a negative dStart
GROWS the clip: on the reachable S4 state, trimClip("c", -1, 0) succeeds
and takes c's duration from 4 to 5. -/
theorem trimClip_negative_argument_grows_clip :
    Reachable tlS4 ∧
    (∃ c ∈ allClips tlS4.sequence, c.id = "c" ∧ c.duration = 4) ∧
    (trimClip tlS4 "c" (-1) 0).1 = true ∧
    (∃ c ∈ allClips (trimClip tlS4 "c" (-1) 0).2.sequence, c.id = "c" ∧ c.duration = 5) :=
  ⟨tlS4_reachable, by decide, by decide, by decide⟩

end ClaimC8Counterexample

section ClaimC4Counterexample

/-- C4 counterexample: when the upserted id names a clip living in ANOTHER
track, validatePlacement is told to ignore that clip's recorded position
WITHIN THE TARGET track, exempting an unrelated clip from the overlap
check.  In the reachable state `tlCross` (a(0,5) in v1 at position 0,
x(10,2) in v2 at position 0), upserting x with trackId v1 and interval
(1,2) overlaps a beyond tolerance, yet returns true. -/
theorem upsertClip_cross_track_accepts_overlap :
    Reachable tlCross ∧
    trackIndexOf tlCross.sequence "v1" = some 0 ∧
    (trackAt tlCross.sequence 0).allowOverlap = false ∧
    (∃ c ∈ (trackAt tlCross.sequence 0).clips,
      c.id ≠ "x" ∧ clipOverlaps c (mkClip "x" "v1" 1 2) = true) ∧
    (upsertClip tlCross (mkClip "x" "v1" 1 2)).1 = true :=
  ⟨tlCross_reachable, by decide, by decide, by decide, by decide⟩

end ClaimC4Counterexample

section ClaimC6Counterexample

/-- C6 counterexample: moveClip never re-sorts.  In the reachable state
`tlTwo` (sorted clips a(0,1), b(2,1) on v1), the in-track reposition
moveClip("a","v1",5) succeeds and leaves v1's list [a(5), b(2)], which is
not sorted by start. -/
theorem moveClip_leaves_track_unsorted :
    Reachable tlTwo ∧
    TracksSorted tlTwo.sequence ∧
    (moveClip tlTwo "a" "v1" 5).1 = true ∧
    ¬ TracksSorted (moveClip tlTwo "a" "v1" 5).2.sequence :=
  ⟨tlTwo_reachable, by decide, by decide, by decide⟩

end ClaimC6Counterexample

section ClaimC7Counterexample

/-- C7 counterexample: splitClip mints the id X ++ "_b" without checking it
is free.  In the reachable state `tlSuffix` (clips a(0,2) and a_b(3,1)),
splitClip("a", 1) succeeds and the sequence then contains the id "a_b"
twice. -/
theorem splitClip_mints_duplicate_id :
    Reachable tlSuffix ∧
    UniqueClipIds tlSuffix.sequence ∧
    (splitClip tlSuffix "a" 1).1 = true ∧
    ¬ UniqueClipIds (splitClip tlSuffix "a" 1).2.sequence :=
  ⟨tlSuffix_reachable, by decide, by decide, by decide⟩

end ClaimC7Counterexample

section ClaimC1Amended

theorem trackIndexOf_setClipAt (s : Sequence) (t c : Nat) (clip : Clip) (tid : String) :
    trackIndexOf (setClipAt s t c clip) tid = trackIndexOf s tid :=
  trackIndexOf_modifyTrackClips s t _ tid

/-- C1 (amended): every failing operation leaves the Timeline — sequence,
undo buffer and redo buffer — exactly as it was, EXCEPT the splitClip path
in which the clip is found and the offset is valid but the clip's trackId
resolves to no track; there the code has already pushed a snapshot and
mutated the clip before it checks the track (see the counterexample). -/
theorem applyOp_failure_atomic (op : Op) (tl : Timeline)
    (hfail : (applyOp op tl).1 = false) (hn : splitGhostCase op tl = false) :
    (applyOp op tl).2 = tl := by
  cases op with
  | setMeta w h f r => simp [applyOp] at hfail
  | addTrack track =>
    simp only [applyOp] at hfail ⊢
    cases hb : trackIndexOf tl.sequence track.id with
    | some t => rw [addTrack_fail (by simp [hb])]
    | none => rw [addTrack_succ hb] at hfail; simp at hfail
  | updateTrack track =>
    simp only [applyOp] at hfail ⊢
    cases hb : trackIndexOf tl.sequence track.id with
    | none => rw [updateTrack_fail hb]
    | some t => rw [updateTrack_succ hb] at hfail; simp at hfail
  | removeTrack trackId =>
    simp only [applyOp] at hfail ⊢
    cases hb : trackIndexOf tl.sequence trackId with
    | none => rw [removeTrack_fail hb]
    | some t => rw [removeTrack_succ hb] at hfail; simp at hfail
  | upsertClip clip =>
    simp only [applyOp] at hfail ⊢
    cases htr : trackIndexOf tl.sequence clip.trackId with
    | none => rw [upsertClip_fail_noTrack htr]
    | some tIdx =>
      cases hci : clipIndexOf tl.sequence clip.id with
      | none =>
        cases hval : validatePlacement (trackAt tl.sequence tIdx) clip none with
        | false => rw [upsertClip_fail_new htr hci hval]
        | true => rw [upsertClip_succ_new htr hci hval] at hfail; simp at hfail
      | some pair =>
        cases hval : validatePlacement (trackAt tl.sequence tIdx) clip (some pair.2) with
        | false => rw [upsertClip_fail_existing htr hci hval]
        | true => rw [upsertClip_succ_existing htr hci hval] at hfail; simp at hfail
  | moveClip clipId targetTrackId newStart =>
    simp only [applyOp] at hfail ⊢
    cases hci : clipIndexOf tl.sequence clipId with
    | none => rw [moveClip_fail_noClip hci]
    | some pair =>
      cases htr : trackIndexOf tl.sequence targetTrackId with
      | none => rw [moveClip_fail_noTrack htr]
      | some tt =>
        cases hval : validatePlacement (trackAt tl.sequence tt)
            { clipAt tl.sequence pair.1 pair.2 with
                trackId := targetTrackId, start := newStart } none with
        | false => rw [moveClip_fail_invalid hci htr hval]
        | true => rw [moveClip_succ hci htr hval] at hfail; simp at hfail
  | trimClip clipId dStart dEnd =>
    simp only [applyOp] at hfail ⊢
    cases hci : clipIndexOf tl.sequence clipId with
    | none => rw [trimClip_fail_noClip hci]
    | some pair =>
      by_cases hd : max 0 ((clipAt tl.sequence pair.1 pair.2).duration - dStart - dEnd) ≤ 0
      · rw [trimClip_fail_zero hci hd]
      · rw [trimClip_succ hci hd] at hfail; simp at hfail
  | splitClip clipId offsetSeconds =>
    simp only [applyOp] at hfail ⊢
    cases hci : clipIndexOf tl.sequence clipId with
    | none => rw [splitClip_fail_noClip hci]
    | some pair =>
      by_cases hoff : offsetSeconds ≤ 0 ∨
          (clipAt tl.sequence pair.1 pair.2).duration ≤ offsetSeconds
      · rw [splitClip_fail_offset hci hoff]
      · cases hg : trackIndexOf
            (setClipAt tl.sequence pair.1 pair.2
              (splitFirstHalf (clipAt tl.sequence pair.1 pair.2) offsetSeconds))
            (clipAt tl.sequence pair.1 pair.2).trackId with
        | some t2 => rw [splitClip_succ hci hoff hg] at hfail; simp at hfail
        | none =>
          exfalso
          have hg0 : trackIndexOf tl.sequence
              (clipAt tl.sequence pair.1 pair.2).trackId = none := by
            rw [← trackIndexOf_setClipAt tl.sequence pair.1 pair.2
              (splitFirstHalf (clipAt tl.sequence pair.1 pair.2) offsetSeconds)]
            exact hg
          have htrue : splitGhostCase (Op.splitClip clipId offsetSeconds) tl = true := by
            have h1 : ¬ offsetSeconds ≤ 0 := fun h => hoff (Or.inl h)
            have h2 : ¬ (clipAt tl.sequence pair.1 pair.2).duration ≤ offsetSeconds :=
              fun h => hoff (Or.inr h)
            simp only [splitGhostCase, hci, hg0]
            simp [h1, h2]
          rw [hn] at htrue
          cases htrue
  | rippleDelete clipId =>
    simp only [applyOp] at hfail ⊢
    cases hci : clipIndexOf tl.sequence clipId with
    | none => rw [rippleDelete_fail_noClip hci]
    | some pair =>
      cases htr : trackIndexOf tl.sequence (clipAt tl.sequence pair.1 pair.2).trackId with
      | none => rw [rippleDelete_fail_noTrack hci htr]
      | some t => rw [rippleDelete_succ hci htr] at hfail; simp at hfail

/-- C1 witness: the S1 overlap rejection upsertClip(b: v1, 3, 4) on the
reachable S1 state fails and, by the atomicity theorem, changes nothing. -/
theorem applyOp_failure_atomic_witness :
    (applyOp (Op.upsertClip (mkClip "b" "v1" 3 4)) tlS1).1 = false ∧
    splitGhostCase (Op.upsertClip (mkClip "b" "v1" 3 4)) tlS1 = false ∧
    (applyOp (Op.upsertClip (mkClip "b" "v1" 3 4)) tlS1).2 = tlS1 :=
  ⟨by decide, by decide,
    applyOp_failure_atomic (Op.upsertClip (mkClip "b" "v1" 3 4)) tlS1
      (by decide) (by decide)⟩

end ClaimC1Amended

section ClaimC3Amended

theorem durationCorrect_of_eq {s : Sequence} (h : s.duration = seqMaxEnd s) :
    DurationCorrect s := by
  refine ⟨h, ?_, ?_, ?_⟩
  · rw [h]; exact seqMaxEnd_nonneg s
  · intro c hc; rw [h]; exact le_seqMaxEnd hc
  · rcases seqMaxEnd_cases s with h0 | ⟨c, hc, he⟩
    · left; rw [h, h0]
    · right; exact ⟨c, hc, by rw [h, he]⟩

/-- C3 (amended): every successful CLIP-level operation (upsertClip,
moveClip, trimClip, splitClip, rippleDelete) ends in updateDuration, so the
cached duration then equals the maximum of all clip endTimes clamped below
at 0 — and 0 exactly when no clip reaches past 0.  The three track-level
operations never recompute it (see the counterexample). -/
theorem clipOps_recompute_duration (op : Op) (tl : Timeline)
    (hop : IsClipOp op) (hsucc : (applyOp op tl).1 = true) :
    DurationCorrect (applyOp op tl).2.sequence := by
  cases op with
  | setMeta w h f r => exact hop.elim
  | addTrack track => exact hop.elim
  | updateTrack track => exact hop.elim
  | removeTrack trackId => exact hop.elim
  | upsertClip clip =>
    simp only [applyOp] at hsucc ⊢
    cases htr : trackIndexOf tl.sequence clip.trackId with
    | none => rw [upsertClip_fail_noTrack htr] at hsucc; simp at hsucc
    | some tIdx =>
      cases hci : clipIndexOf tl.sequence clip.id with
      | none =>
        cases hval : validatePlacement (trackAt tl.sequence tIdx) clip none with
        | false => rw [upsertClip_fail_new htr hci hval] at hsucc; simp at hsucc
        | true =>
          rw [upsertClip_succ_new htr hci hval]
          exact durationCorrect_of_eq (updateDuration_duration _)
      | some pair =>
        cases hval : validatePlacement (trackAt tl.sequence tIdx) clip (some pair.2) with
        | false => rw [upsertClip_fail_existing htr hci hval] at hsucc; simp at hsucc
        | true =>
          rw [upsertClip_succ_existing htr hci hval]
          exact durationCorrect_of_eq (updateDuration_duration _)
  | moveClip clipId targetTrackId newStart =>
    simp only [applyOp] at hsucc ⊢
    cases hci : clipIndexOf tl.sequence clipId with
    | none => rw [moveClip_fail_noClip hci] at hsucc; simp at hsucc
    | some pair =>
      cases htr : trackIndexOf tl.sequence targetTrackId with
      | none => rw [moveClip_fail_noTrack htr] at hsucc; simp at hsucc
      | some tt =>
        cases hval : validatePlacement (trackAt tl.sequence tt)
            { clipAt tl.sequence pair.1 pair.2 with
                trackId := targetTrackId, start := newStart } none with
        | false => rw [moveClip_fail_invalid hci htr hval] at hsucc; simp at hsucc
        | true =>
          rw [moveClip_succ hci htr hval]
          exact durationCorrect_of_eq (updateDuration_duration _)
  | trimClip clipId dStart dEnd =>
    simp only [applyOp] at hsucc ⊢
    cases hci : clipIndexOf tl.sequence clipId with
    | none => rw [trimClip_fail_noClip hci] at hsucc; simp at hsucc
    | some pair =>
      by_cases hd : max 0 ((clipAt tl.sequence pair.1 pair.2).duration - dStart - dEnd) ≤ 0
      · rw [trimClip_fail_zero hci hd] at hsucc; simp at hsucc
      · rw [trimClip_succ hci hd]
        exact durationCorrect_of_eq (updateDuration_duration _)
  | splitClip clipId offsetSeconds =>
    simp only [applyOp] at hsucc ⊢
    cases hci : clipIndexOf tl.sequence clipId with
    | none => rw [splitClip_fail_noClip hci] at hsucc; simp at hsucc
    | some pair =>
      by_cases hoff : offsetSeconds ≤ 0 ∨
          (clipAt tl.sequence pair.1 pair.2).duration ≤ offsetSeconds
      · rw [splitClip_fail_offset hci hoff] at hsucc; simp at hsucc
      · cases hg : trackIndexOf
            (setClipAt tl.sequence pair.1 pair.2
              (splitFirstHalf (clipAt tl.sequence pair.1 pair.2) offsetSeconds))
            (clipAt tl.sequence pair.1 pair.2).trackId with
        | none => rw [splitClip_fail_ghost hci hoff hg] at hsucc; simp at hsucc
        | some t2 =>
          rw [splitClip_succ hci hoff hg]
          exact durationCorrect_of_eq (updateDuration_duration _)
  | rippleDelete clipId =>
    simp only [applyOp] at hsucc ⊢
    cases hci : clipIndexOf tl.sequence clipId with
    | none => rw [rippleDelete_fail_noClip hci] at hsucc; simp at hsucc
    | some pair =>
      cases htr : trackIndexOf tl.sequence (clipAt tl.sequence pair.1 pair.2).trackId with
      | none => rw [rippleDelete_fail_noTrack hci htr] at hsucc; simp at hsucc
      | some t =>
        rw [rippleDelete_succ hci htr]
        exact durationCorrect_of_eq (updateDuration_duration _)

/-- C3 witness: the successful S1 upsert of a(0,5) onto the reachable state
`tlV1` yields a correctly cached duration. -/
theorem clipOps_recompute_duration_witness :
    IsClipOp (Op.upsertClip (mkClip "a" "v1" 0 5)) ∧
    (applyOp (Op.upsertClip (mkClip "a" "v1" 0 5)) tlV1).1 = true ∧
    DurationCorrect (applyOp (Op.upsertClip (mkClip "a" "v1" 0 5)) tlV1).2.sequence :=
  ⟨trivial, by decide,
    clipOps_recompute_duration (Op.upsertClip (mkClip "a" "v1" 0 5)) tlV1
      trivial (by decide)⟩

end ClaimC3Amended

section ClaimC10

/-- Every operation either leaves the cached duration untouched or writes
the updateDuration result into it. -/
theorem applyOp_duration_cases (op : Op) (tl : Timeline) :
    (applyOp op tl).2.sequence.duration = tl.sequence.duration ∨
    (applyOp op tl).2.sequence.duration = seqMaxEnd ((applyOp op tl).2.sequence) := by
  cases op with
  | setMeta w h f r => left; rfl
  | addTrack track =>
    simp only [applyOp]
    cases hb : trackIndexOf tl.sequence track.id with
    | some t => rw [addTrack_fail (by simp [hb])]; left; rfl
    | none => rw [addTrack_succ hb]; left; rfl
  | updateTrack track =>
    simp only [applyOp]
    cases hb : trackIndexOf tl.sequence track.id with
    | none => rw [updateTrack_fail hb]; left; rfl
    | some t => rw [updateTrack_succ hb]; left; rfl
  | removeTrack trackId =>
    simp only [applyOp]
    cases hb : trackIndexOf tl.sequence trackId with
    | none => rw [removeTrack_fail hb]; left; rfl
    | some t => rw [removeTrack_succ hb]; left; rfl
  | upsertClip clip =>
    simp only [applyOp]
    cases htr : trackIndexOf tl.sequence clip.trackId with
    | none => rw [upsertClip_fail_noTrack htr]; left; rfl
    | some tIdx =>
      cases hci : clipIndexOf tl.sequence clip.id with
      | none =>
        cases hval : validatePlacement (trackAt tl.sequence tIdx) clip none with
        | false => rw [upsertClip_fail_new htr hci hval]; left; rfl
        | true =>
          rw [upsertClip_succ_new htr hci hval]
          right
          exact updateDuration_duration _
      | some pair =>
        cases hval : validatePlacement (trackAt tl.sequence tIdx) clip (some pair.2) with
        | false => rw [upsertClip_fail_existing htr hci hval]; left; rfl
        | true =>
          rw [upsertClip_succ_existing htr hci hval]
          right
          exact updateDuration_duration _
  | moveClip clipId targetTrackId newStart =>
    simp only [applyOp]
    cases hci : clipIndexOf tl.sequence clipId with
    | none => rw [moveClip_fail_noClip hci]; left; rfl
    | some pair =>
      cases htr : trackIndexOf tl.sequence targetTrackId with
      | none => rw [moveClip_fail_noTrack htr]; left; rfl
      | some tt =>
        cases hval : validatePlacement (trackAt tl.sequence tt)
            { clipAt tl.sequence pair.1 pair.2 with
                trackId := targetTrackId, start := newStart } none with
        | false => rw [moveClip_fail_invalid hci htr hval]; left; rfl
        | true =>
          rw [moveClip_succ hci htr hval]
          right
          exact updateDuration_duration _
  | trimClip clipId dStart dEnd =>
    simp only [applyOp]
    cases hci : clipIndexOf tl.sequence clipId with
    | none => rw [trimClip_fail_noClip hci]; left; rfl
    | some pair =>
      by_cases hd : max 0 ((clipAt tl.sequence pair.1 pair.2).duration - dStart - dEnd) ≤ 0
      · rw [trimClip_fail_zero hci hd]; left; rfl
      · rw [trimClip_succ hci hd]
        right
        exact updateDuration_duration _
  | splitClip clipId offsetSeconds =>
    simp only [applyOp]
    cases hci : clipIndexOf tl.sequence clipId with
    | none => rw [splitClip_fail_noClip hci]; left; rfl
    | some pair =>
      by_cases hoff : offsetSeconds ≤ 0 ∨
          (clipAt tl.sequence pair.1 pair.2).duration ≤ offsetSeconds
      · rw [splitClip_fail_offset hci hoff]; left; rfl
      · cases hg : trackIndexOf
            (setClipAt tl.sequence pair.1 pair.2
              (splitFirstHalf (clipAt tl.sequence pair.1 pair.2) offsetSeconds))
            (clipAt tl.sequence pair.1 pair.2).trackId with
        | none => rw [splitClip_fail_ghost hci hoff hg]; left; rfl
        | some t2 =>
          rw [splitClip_succ hci hoff hg]
          right
          exact updateDuration_duration _
  | rippleDelete clipId =>
    simp only [applyOp]
    cases hci : clipIndexOf tl.sequence clipId with
    | none => rw [rippleDelete_fail_noClip hci]; left; rfl
    | some pair =>
      cases htr : trackIndexOf tl.sequence (clipAt tl.sequence pair.1 pair.2).trackId with
      | none => rw [rippleDelete_fail_noTrack hci htr]; left; rfl
      | some t =>
        rw [rippleDelete_succ hci htr]
        right
        exact updateDuration_duration _

/-- C10: in every reachable Timeline state the cached duration is ≥ 0:
updateDuration starts its running maximum at 0, and the operations that skip
it leave the previous (inductively nonnegative) value in place. -/
theorem reachable_duration_nonneg (tl : Timeline) (h : Reachable tl) :
    0 ≤ tl.sequence.duration := by
  induction h with
  | init => exact le_refl 0
  | step op tl hr ih =>
    rcases applyOp_duration_cases op tl with he | he
    · rw [he]; exact ih
    · rw [he]; exact seqMaxEnd_nonneg _

/-- C10 witness: upsertClip accepts a clip whose start (and endTime) are
negative, and the reachable state after it still caches duration 0, not a
negative value. -/
theorem reachable_duration_nonneg_witness :
    (applyOp (Op.upsertClip (mkClip "neg" "v1" (-10) 2)) tlV1).1 = true ∧
    Reachable (applyOp (Op.upsertClip (mkClip "neg" "v1" (-10) 2)) tlV1).2 ∧
    (applyOp (Op.upsertClip (mkClip "neg" "v1" (-10) 2)) tlV1).2.sequence.duration = 0 ∧
    0 ≤ (applyOp (Op.upsertClip (mkClip "neg" "v1" (-10) 2)) tlV1).2.sequence.duration :=
  ⟨by decide,
    Reachable.step (Op.upsertClip (mkClip "neg" "v1" (-10) 2)) tlV1 tlV1_reachable,
    by decide,
    reachable_duration_nonneg _
      (Reachable.step (Op.upsertClip (mkClip "neg" "v1" (-10) 2)) tlV1 tlV1_reachable)⟩

end ClaimC10

section ClaimC8Amended

/-- C8 (amended): for nonnegative total trim (0 ≤ dStart + dEnd) a successful
trimClip never grows the clip: the new duration and endTime are bounded by
the old ones, start is untouched, and any overlap of the trimmed clip was
already an overlap of the original — so no new overlap can appear.  (With
negative total trim the clip grows; see the counterexample.) -/
theorem trimClip_shrinks (tl : Timeline) (clipId : String) (dStart dEnd : ℚ)
    (pair : Nat × Nat) (hloc : clipIndexOf tl.sequence clipId = some pair)
    (hsum : 0 ≤ dStart + dEnd)
    (hsucc : (trimClip tl clipId dStart dEnd).1 = true) :
    (clipAt (trimClip tl clipId dStart dEnd).2.sequence pair.1 pair.2).duration ≤
      (clipAt tl.sequence pair.1 pair.2).duration ∧
    (clipAt (trimClip tl clipId dStart dEnd).2.sequence pair.1 pair.2).start =
      (clipAt tl.sequence pair.1 pair.2).start ∧
    (clipAt (trimClip tl clipId dStart dEnd).2.sequence pair.1 pair.2).endTime ≤
      (clipAt tl.sequence pair.1 pair.2).endTime ∧
    ∀ x : Clip,
      clipOverlaps x (clipAt (trimClip tl clipId dStart dEnd).2.sequence pair.1 pair.2) = true →
      clipOverlaps x (clipAt tl.sequence pair.1 pair.2) = true := by
  obtain ⟨tr, cl, htr, hcl, hid⟩ := clipIndexOf_some hloc
  by_cases hd : max 0 ((clipAt tl.sequence pair.1 pair.2).duration - dStart - dEnd) ≤ 0
  · rw [trimClip_fail_zero hloc hd] at hsucc; simp at hsucc
  · rw [trimClip_succ hloc hd]
    have hca : clipAt
        (withSeq (pushUndo tl)
          (updateDuration (setClipAt tl.sequence pair.1 pair.2
            { clipAt tl.sequence pair.1 pair.2 with
                trimStart := (clipAt tl.sequence pair.1 pair.2).trimStart + dStart,
                trimEnd := (clipAt tl.sequence pair.1 pair.2).trimEnd + dEnd,
                duration := max 0 ((clipAt tl.sequence pair.1 pair.2).duration
                  - dStart - dEnd) }))).sequence pair.1 pair.2 =
        { clipAt tl.sequence pair.1 pair.2 with
            trimStart := (clipAt tl.sequence pair.1 pair.2).trimStart + dStart,
            trimEnd := (clipAt tl.sequence pair.1 pair.2).trimEnd + dEnd,
            duration := max 0 ((clipAt tl.sequence pair.1 pair.2).duration
              - dStart - dEnd) } :=
      clipAt_setClipAt htr hcl _
    rw [hca]
    have hpos : ¬ (clipAt tl.sequence pair.1 pair.2).duration - dStart - dEnd ≤ 0 := by
      intro hle
      exact hd (by rw [max_eq_left hle])
    have hmax : max 0 ((clipAt tl.sequence pair.1 pair.2).duration - dStart - dEnd) =
        (clipAt tl.sequence pair.1 pair.2).duration - dStart - dEnd :=
      max_eq_right (le_of_lt (lt_of_not_le hpos))
    have hdur : max 0 ((clipAt tl.sequence pair.1 pair.2).duration - dStart - dEnd) ≤
        (clipAt tl.sequence pair.1 pair.2).duration := by
      rw [hmax]
      linarith
    refine ⟨hdur, rfl, ?_, ?_⟩
    · show (clipAt tl.sequence pair.1 pair.2).start +
          max 0 ((clipAt tl.sequence pair.1 pair.2).duration - dStart - dEnd) ≤
        (clipAt tl.sequence pair.1 pair.2).start + (clipAt tl.sequence pair.1 pair.2).duration
      exact add_le_add_left hdur _
    · intro x hx
      have hend : (clipAt tl.sequence pair.1 pair.2).start +
          max 0 ((clipAt tl.sequence pair.1 pair.2).duration - dStart - dEnd) ≤
          (clipAt tl.sequence pair.1 pair.2).start +
            (clipAt tl.sequence pair.1 pair.2).duration :=
        add_le_add_left hdur _
      unfold clipOverlaps at hx ⊢
      rw [decide_eq_true_eq] at hx ⊢
      unfold Clip.endTime at hx ⊢
      have hmin : min (x.start + x.duration)
          ((clipAt tl.sequence pair.1 pair.2).start +
            max 0 ((clipAt tl.sequence pair.1 pair.2).duration - dStart - dEnd)) ≤
          min (x.start + x.duration)
            ((clipAt tl.sequence pair.1 pair.2).start +
              (clipAt tl.sequence pair.1 pair.2).duration) :=
        min_le_min (le_refl _) hend
      calc (1 : ℚ) / 1000000 < _ := hx
      _ ≤ _ := by
        apply sub_le_sub hmin
        exact le_refl _

/-- C8 witness: the S4 trim — trimClip("c",1,1) on c(0,4) succeeds and the
conclusion of the shrink theorem holds for it. -/
theorem trimClip_shrinks_witness :
    clipIndexOf tlS4.sequence "c" = some (0, 0) ∧
    (0 : ℚ) ≤ 1 + 1 ∧
    (trimClip tlS4 "c" 1 1).1 = true ∧
    ((clipAt (trimClip tlS4 "c" 1 1).2.sequence 0 0).duration ≤
        (clipAt tlS4.sequence 0 0).duration ∧
      (clipAt (trimClip tlS4 "c" 1 1).2.sequence 0 0).start =
        (clipAt tlS4.sequence 0 0).start ∧
      (clipAt (trimClip tlS4 "c" 1 1).2.sequence 0 0).endTime ≤
        (clipAt tlS4.sequence 0 0).endTime ∧
      ∀ x : Clip, clipOverlaps x (clipAt (trimClip tlS4 "c" 1 1).2.sequence 0 0) = true →
        clipOverlaps x (clipAt tlS4.sequence 0 0) = true) :=
  ⟨by decide, by decide, by decide,
    trimClip_shrinks tlS4 "c" 1 1 (0, 0) (by decide) (by decide) (by decide)⟩

end ClaimC8Amended

section ClaimC4Amended

/-- C4 (amended): on a non-overlap target track, upsertClip returns false
whenever the candidate overlaps (beyond tolerance) the clip at any index of
the target track other than the EXCLUDED one, where the excluded index is
the second component of the existing clip's recorded (track, clip) position
— its own slot exactly when it lives in the target track, an unrelated
clip's slot otherwise (see the counterexample) — and no index is excluded
for a new clip id. -/
theorem upsertClip_rejects_nonexcluded_overlap (tl : Timeline) (c : Clip)
    (tIdx i : Nat) (ci : Clip)
    (htr : trackIndexOf tl.sequence c.trackId = some tIdx)
    (hov : (trackAt tl.sequence tIdx).allowOverlap = false)
    (hci : (trackAt tl.sequence tIdx).clips.get? i = some ci)
    (hexc : (clipIndexOf tl.sequence c.id).map Prod.snd ≠ some i)
    (hover : clipOverlaps ci c = true) :
    (upsertClip tl c).1 = false := by
  cases hcl : clipIndexOf tl.sequence c.id with
  | none =>
    have hval : validatePlacement (trackAt tl.sequence tIdx) c none = false :=
      validatePlacement_false_of hov hci (by simp) hover
    rw [upsertClip_fail_new htr hcl hval]
  | some pair =>
    have hne : (some pair.2 : Option Nat) ≠ some i := by
      rw [hcl] at hexc
      simpa using hexc
    have hval : validatePlacement (trackAt tl.sequence tIdx) c (some pair.2) = false :=
      validatePlacement_false_of hov hci hne hover
    rw [upsertClip_fail_existing htr hcl hval]

/-- C4 witness: the S1 rejection — upserting b(3,4) into v1, which holds
a(0,5) at index 0, is refused. -/
theorem upsertClip_rejects_overlap_witness :
    trackIndexOf tlS1.sequence (mkClip "b" "v1" 3 4).trackId = some 0 ∧
    (trackAt tlS1.sequence 0).allowOverlap = false ∧
    (trackAt tlS1.sequence 0).clips.get? 0 = some (mkClip "a" "v1" 0 5) ∧
    (clipIndexOf tlS1.sequence (mkClip "b" "v1" 3 4).id).map Prod.snd ≠ some 0 ∧
    clipOverlaps (mkClip "a" "v1" 0 5) (mkClip "b" "v1" 3 4) = true ∧
    (upsertClip tlS1 (mkClip "b" "v1" 3 4)).1 = false :=
  ⟨by decide, by decide, by decide, by decide, by decide,
    upsertClip_rejects_nonexcluded_overlap tlS1 (mkClip "b" "v1" 3 4) 0 0
      (mkClip "a" "v1" 0 5) (by decide) (by decide) (by decide) (by decide) (by decide)⟩

end ClaimC4Amended

section ClaimC6Amended

/-- Sorting one track yields a fully sorted sequence as long as every other
track was already sorted. -/
theorem tracksSorted_sortTrackAt {s : Sequence} {t : Nat}
    (h : ∀ j tr, j ≠ t → s.tracks.get? j = some tr → SortedByStart tr.clips) :
    TracksSorted (sortTrackAt s t) := by
  rw [tracksSorted_iff_get?]
  intro j tr hj
  by_cases hjt : j = t
  · subst hjt
    cases hg : s.tracks.get? j with
    | none =>
      have : (sortTrackAt s j).tracks.get? j = s.tracks.get? j := by
        show (listModify s.tracks j _).get? j = s.tracks.get? j
        rw [listModify_out hg]
      rw [this, hg] at hj
      cases hj
    | some tr0 =>
      have hset := get?_modifyTrackClips_self hg sortClipsByStart
      have : tr = { tr0 with clips := sortClipsByStart tr0.clips } := by
        have := hj.symm.trans hset
        exact Option.some_inj.mp this
      rw [this]
      exact sortClipsByStart_sorted tr0.clips
  · rw [show sortTrackAt s t = modifyTrackClips s t sortClipsByStart from rfl,
      get?_modifyTrackClips_ne (Ne.symm hjt) sortClipsByStart] at hj
    exact h j tr hjt hj

theorem upsertStaysInTrack_spec {tl : Timeline} {c : Clip} {pair : Nat × Nat}
    (h : upsertStaysInTrack tl c = true)
    (hci : clipIndexOf tl.sequence c.id = some pair) :
    trackIndexOf tl.sequence c.trackId = some pair.1 := by
  unfold upsertStaysInTrack at h
  rw [hci] at h
  simpa using h

/-- C6 (amended): with every track sorted beforehand, upsertClip keeps every
track sorted whenever the clip is new or already lives in the track its
trackId names (the cross-track update writes into the old track without
re-sorting it), and splitClip keeps every track sorted on every path.
moveClip, updateTrack, addTrack and rippleDelete perform no sort at all and
can leave a track unsorted (see the counterexample for moveClip). -/
theorem upsert_split_preserve_sorted (tl : Timeline) (hs : TracksSorted tl.sequence) :
    (∀ c : Clip, upsertStaysInTrack tl c = true →
      TracksSorted (upsertClip tl c).2.sequence) ∧
    (∀ clipId offsetSeconds,
      TracksSorted (splitClip tl clipId (offsetSeconds : ℚ)).2.sequence) := by
  constructor
  · intro c hstay
    cases htr : trackIndexOf tl.sequence c.trackId with
    | none => rw [upsertClip_fail_noTrack htr]; exact hs
    | some tIdx =>
      cases hci : clipIndexOf tl.sequence c.id with
      | none =>
        cases hval : validatePlacement (trackAt tl.sequence tIdx) c none with
        | false => rw [upsertClip_fail_new htr hci hval]; exact hs
        | true =>
          rw [upsertClip_succ_new htr hci hval]
          show TracksSorted (sortTrackAt
            (modifyTrackClips tl.sequence tIdx (fun clips => clips ++ [c])) tIdx)
          apply tracksSorted_sortTrackAt
          intro j tr hj hg
          rw [get?_modifyTrackClips_ne (Ne.symm hj) _] at hg
          exact (tracksSorted_iff_get?.mp hs) j tr hg
      | some pair =>
        have hstay2 := upsertStaysInTrack_spec hstay hci
        have hpt : pair.1 = tIdx := by
          rw [hstay2] at htr
          exact Option.some_inj.mp htr
        cases hval : validatePlacement (trackAt tl.sequence tIdx) c (some pair.2) with
        | false => rw [upsertClip_fail_existing htr hci hval]; exact hs
        | true =>
          rw [upsertClip_succ_existing htr hci hval]
          show TracksSorted (sortTrackAt (setClipAt tl.sequence pair.1 pair.2 c) tIdx)
          apply tracksSorted_sortTrackAt
          intro j tr hj hg
          rw [show setClipAt tl.sequence pair.1 pair.2 c =
            modifyTrackClips tl.sequence pair.1 (fun clips => clips.set pair.2 c) from rfl,
            hpt] at hg
          rw [get?_modifyTrackClips_ne (Ne.symm hj) _] at hg
          exact (tracksSorted_iff_get?.mp hs) j tr hg
  · intro clipId offsetSeconds
    cases hci : clipIndexOf tl.sequence clipId with
    | none => rw [splitClip_fail_noClip hci]; exact hs
    | some pair =>
      obtain ⟨tr0, cl, htr0, hcl, hid⟩ := clipIndexOf_some hci
      have hclAt : clipAt tl.sequence pair.1 pair.2 = cl := clipAt_of_get? htr0 hcl
      have hsetSorted : ∀ j tr, (setClipAt tl.sequence pair.1 pair.2
          (splitFirstHalf (clipAt tl.sequence pair.1 pair.2) offsetSeconds)).tracks.get? j =
            some tr → SortedByStart tr.clips := by
        intro j tr hg
        by_cases hjp : j = pair.1
        · subst hjp
          have hset := get?_modifyTrackClips_self htr0
            (fun clips => clips.set pair.2
              (splitFirstHalf (clipAt tl.sequence pair.1 pair.2) offsetSeconds))
          have heq := Option.some_inj.mp (hg.symm.trans hset)
          rw [heq]
          show SortedByStart (tr0.clips.set pair.2
            (splitFirstHalf (clipAt tl.sequence pair.1 pair.2) offsetSeconds))
          apply sortedByStart_set (hs tr0 (List.get?_mem htr0)) hcl
          rw [hclAt]
          rfl
        · rw [show setClipAt tl.sequence pair.1 pair.2
              (splitFirstHalf (clipAt tl.sequence pair.1 pair.2) offsetSeconds) =
            modifyTrackClips tl.sequence pair.1 (fun clips => clips.set pair.2
              (splitFirstHalf (clipAt tl.sequence pair.1 pair.2) offsetSeconds)) from rfl,
            get?_modifyTrackClips_ne (fun h => hjp h.symm) _] at hg
          exact (tracksSorted_iff_get?.mp hs) j tr hg
      by_cases hoff : offsetSeconds ≤ 0 ∨
          (clipAt tl.sequence pair.1 pair.2).duration ≤ offsetSeconds
      · rw [splitClip_fail_offset hci hoff]; exact hs
      · cases hg : trackIndexOf
            (setClipAt tl.sequence pair.1 pair.2
              (splitFirstHalf (clipAt tl.sequence pair.1 pair.2) offsetSeconds))
            (clipAt tl.sequence pair.1 pair.2).trackId with
        | none =>
          rw [splitClip_fail_ghost hci hoff hg]
          show TracksSorted (setClipAt tl.sequence pair.1 pair.2
            (splitFirstHalf (clipAt tl.sequence pair.1 pair.2) offsetSeconds))
          rw [tracksSorted_iff_get?]
          intro j tr hj
          exact hsetSorted j tr hj
        | some t2 =>
          rw [splitClip_succ hci hoff hg]
          show TracksSorted (sortTrackAt
            (modifyTrackClips
              (setClipAt tl.sequence pair.1 pair.2
                (splitFirstHalf (clipAt tl.sequence pair.1 pair.2) offsetSeconds))
              t2
              (fun clips => clips ++
                [splitSecondHalf (clipAt tl.sequence pair.1 pair.2) offsetSeconds]))
            t2)
          apply tracksSorted_sortTrackAt
          intro j tr hj hgj
          rw [get?_modifyTrackClips_ne (Ne.symm hj) _] at hgj
          exact hsetSorted j tr hgj

/-- C6 witness: from the reachable one-clip state `tlTwoA` both covered
operations keep every track sorted: the new-clip upsert of b(2,1) and the
split of a at offset 1 on `tlSuffixA`. -/
theorem upsert_split_preserve_sorted_witness :
    TracksSorted tlTwoA.sequence ∧
    upsertStaysInTrack tlTwoA (mkClip "b" "v1" 2 1) = true ∧
    TracksSorted (upsertClip tlTwoA (mkClip "b" "v1" 2 1)).2.sequence ∧
    TracksSorted tlSuffixA.sequence ∧
    TracksSorted (splitClip tlSuffixA "a" 1).2.sequence :=
  ⟨by decide, by decide,
    (upsert_split_preserve_sorted tlTwoA (by decide)).1 (mkClip "b" "v1" 2 1) (by decide),
    by decide,
    (upsert_split_preserve_sorted tlSuffixA (by decide)).2 "a" 1⟩

end ClaimC6Amended

section ClaimC7Infrastructure

theorem trackIds_modifyTrackClips (s : Sequence) (t : Nat) (f : List Clip → List Clip) :
    (modifyTrackClips s t f).tracks.map Track.id = s.tracks.map Track.id := by
  show (listModify s.tracks t _).map Track.id = s.tracks.map Track.id
  exact map_listModify_invariant s.tracks t (fun a => rfl)

theorem not_mem_clipIds_of_none {s : Sequence} {cid : String}
    (h : clipIndexOf s cid = none) : cid ∉ clipIds s := by
  intro hmem
  obtain ⟨cl, hcl, hidq⟩ := List.mem_map.mp hmem
  obtain ⟨tr, htr, hclin⟩ := List.mem_flatMap.mp hcl
  exact (clipIndexOf_none.mp h) tr htr cl hclin hidq

/-- Sorting one track permutes the sequence's clip ids. -/
theorem clipIds_sortTrackAt_perm (s : Sequence) (t : Nat) :
    (clipIds (sortTrackAt s t)).Perm (clipIds s) := by
  cases hg : s.tracks.get? t with
  | none =>
    have : sortTrackAt s t = s := by
      show { s with tracks := listModify s.tracks t _ } = s
      rw [listModify_out hg]
    rw [this]
  | some tr =>
    show (clipIds (modifyTrackClips s t sortClipsByStart)).Perm (clipIds s)
    have hd := clipIds_modifyTrackClips hg sortClipsByStart
    rw [hd.1, hd.2]
    exact List.Perm.append_left _
      (List.Perm.append ((sortClipsByStart_perm tr.clips).map Clip.id) (List.Perm.refl _))

/-- Appending one clip to a track conses its id onto the sequence's clip
ids, up to permutation. -/
theorem clipIds_append_clip_perm {s : Sequence} {t : Nat} {tr : Track}
    (hg : s.tracks.get? t = some tr) (c : Clip) :
    (clipIds (modifyTrackClips s t (fun clips => clips ++ [c]))).Perm
      (c.id :: clipIds s) := by
  have hd := clipIds_modifyTrackClips hg (fun clips => clips ++ [c])
  rw [hd.1, hd.2]
  simp only [List.map_append, List.map_cons, List.map_nil]
  generalize ((s.tracks.take t).flatMap (fun tr => tr.clips)).map Clip.id = A
  generalize hM : tr.clips.map Clip.id = M
  generalize ((s.tracks.drop (t + 1)).flatMap (fun tr => tr.clips)).map Clip.id = B
  have p1 : List.Perm ((M ++ [c.id]) ++ B) (c.id :: (M ++ B)) := by
    rw [List.append_assoc]
    exact List.perm_middle
  exact (List.Perm.append_left A p1).trans List.perm_middle

/-- Replacing a clip by one with the same id leaves the clip ids unchanged. -/
theorem clipIds_setClipAt_same {s : Sequence} {t c : Nat} {tr : Track} {cl : Clip}
    (hg : s.tracks.get? t = some tr) (hc : tr.clips.get? c = some cl)
    (clip : Clip) (hid : clip.id = cl.id) :
    clipIds (setClipAt s t c clip) = clipIds s := by
  have hd := clipIds_modifyTrackClips hg (fun clips => clips.set c clip)
  show clipIds (modifyTrackClips s t (fun clips => clips.set c clip)) = clipIds s
  rw [hd.1, hd.2]
  have : (tr.clips.set c clip).map Clip.id = tr.clips.map Clip.id := by
    rw [List.map_set, hid]
    apply set_get?_eq
    rw [List.get?_map, hc]
    rfl
  rw [this]

/-- Replacing a track's clips by a list with a sub-multiset of the ids keeps
the sequence's clip ids a sublist of the original. -/
theorem clipIds_replace_sublist {s : Sequence} {t : Nat} {tr : Track}
    (hg : s.tracks.get? t = some tr) (repl : List Clip)
    (hsub : List.Sublist (repl.map Clip.id) (tr.clips.map Clip.id)) :
    List.Sublist (clipIds (modifyTrackClips s t (fun _ => repl))) (clipIds s) := by
  have hd := clipIds_modifyTrackClips hg (fun _ => repl)
  rw [hd.1, hd.2]
  exact List.Sublist.append (List.Sublist.refl _)
    (List.Sublist.append hsub (List.Sublist.refl _))

/-- Mapping an id-preserving per-position rewrite over an enumerated list
keeps the ids. -/
theorem map_id_enum_map (g : Nat × Clip → Clip) (h : ∀ ic, (g ic).id = ic.2.id)
    (l : List Clip) : ((l.enum.map g).map Clip.id) = l.map Clip.id := by
  rw [List.map_map]
  have h2 : ∀ ic ∈ l.enum, (Clip.id ∘ g) ic = (fun ic : Nat × Clip => ic.2.id) ic :=
    fun ic _ => h ic
  rw [List.map_congr_left h2]
  show l.enum.map (Clip.id ∘ Prod.snd) = l.map Clip.id
  rw [← List.map_map, List.enum_map_snd]

/-- The ripple shift only rewrites starts, never ids. -/
theorem rippleShift_map_id (erased : List Clip) (cc : Nat) (leftover d : ℚ) :
    (rippleShift erased cc leftover d).map Clip.id = erased.map Clip.id := by
  unfold rippleShift
  apply map_id_enum_map
  intro ic
  dsimp only
  split
  · split
    · rfl
    · rfl
  · split
    · rfl
    · rfl

end ClaimC7Infrastructure

section ClaimC7Helpers

theorem uniqueTrackIds_modify {s : Sequence} {t : Nat} {f : List Clip → List Clip} :
    UniqueTrackIds (modifyTrackClips s t f) ↔ UniqueTrackIds s := by
  unfold UniqueTrackIds
  rw [trackIds_modifyTrackClips]

/-- Track ids never collide: every operation either checks the id
(addTrack), replaces a track keeping its id (updateTrack), erases a track
(removeTrack), or rewrites clip lists only. -/
theorem trackIds_preserved (op : Op) (tl : Timeline)
    (h : UniqueTrackIds tl.sequence) : UniqueTrackIds (applyOp op tl).2.sequence := by
  cases op with
  | setMeta w hh f r => exact h
  | addTrack track =>
    simp only [applyOp]
    cases hb : trackIndexOf tl.sequence track.id with
    | some t => rw [addTrack_fail (by simp [hb])]; exact h
    | none =>
      rw [addTrack_succ hb]
      show ((tl.sequence.tracks ++ [track]).map Track.id).Nodup
      rw [List.map_append]
      have hnm : track.id ∉ tl.sequence.tracks.map Track.id := by
        intro hm
        obtain ⟨tr, htr, hid⟩ := List.mem_map.mp hm
        exact (trackIndexOf_none.mp hb) tr htr hid
      refine List.Nodup.append h (List.nodup_singleton _) ?_
      intro a ha hmem
      simp only [List.map_cons, List.map_nil, List.mem_singleton] at hmem
      subst hmem
      exact hnm ha
  | updateTrack track =>
    simp only [applyOp]
    cases hb : trackIndexOf tl.sequence track.id with
    | none => rw [updateTrack_fail hb]; exact h
    | some t =>
      rw [updateTrack_succ hb]
      show ((tl.sequence.tracks.set t track).map Track.id).Nodup
      obtain ⟨tr0, hgt, hid0⟩ := trackIndexOf_some hb
      rw [List.map_set]
      have hkeep : (tl.sequence.tracks.map Track.id).set t track.id =
          tl.sequence.tracks.map Track.id := by
        apply set_get?_eq
        rw [List.get?_map, hgt]
        show some tr0.id = some track.id
        rw [hid0]
      rw [hkeep]
      exact h
  | removeTrack trackId =>
    simp only [applyOp]
    cases hb : trackIndexOf tl.sequence trackId with
    | none => rw [removeTrack_fail hb]; exact h
    | some t =>
      rw [removeTrack_succ hb]
      show ((tl.sequence.tracks.eraseIdx t).map Track.id).Nodup
      exact List.Nodup.sublist ((tl.sequence.tracks.eraseIdx_sublist t).map Track.id) h
  | upsertClip clip =>
    simp only [applyOp]
    cases htr : trackIndexOf tl.sequence clip.trackId with
    | none => rw [upsertClip_fail_noTrack htr]; exact h
    | some tIdx =>
      cases hci : clipIndexOf tl.sequence clip.id with
      | none =>
        cases hval : validatePlacement (trackAt tl.sequence tIdx) clip none with
        | false => rw [upsertClip_fail_new htr hci hval]; exact h
        | true =>
          rw [upsertClip_succ_new htr hci hval]
          show UniqueTrackIds (modifyTrackClips
            (modifyTrackClips tl.sequence tIdx (fun clips => clips ++ [clip]))
            tIdx sortClipsByStart)
          rw [uniqueTrackIds_modify, uniqueTrackIds_modify]
          exact h
      | some pair =>
        cases hval : validatePlacement (trackAt tl.sequence tIdx) clip (some pair.2) with
        | false => rw [upsertClip_fail_existing htr hci hval]; exact h
        | true =>
          rw [upsertClip_succ_existing htr hci hval]
          show UniqueTrackIds (modifyTrackClips
            (modifyTrackClips tl.sequence pair.1 (fun clips => clips.set pair.2 clip))
            tIdx sortClipsByStart)
          rw [uniqueTrackIds_modify, uniqueTrackIds_modify]
          exact h
  | moveClip clipId targetTrackId newStart =>
    simp only [applyOp]
    cases hci : clipIndexOf tl.sequence clipId with
    | none => rw [moveClip_fail_noClip hci]; exact h
    | some pair =>
      cases htr : trackIndexOf tl.sequence targetTrackId with
      | none => rw [moveClip_fail_noTrack htr]; exact h
      | some tt =>
        cases hval : validatePlacement (trackAt tl.sequence tt)
            { clipAt tl.sequence pair.1 pair.2 with
                trackId := targetTrackId, start := newStart } none with
        | false => rw [moveClip_fail_invalid hci htr hval]; exact h
        | true =>
          rw [moveClip_succ hci htr hval]
          show UniqueTrackIds (modifyTrackClips tl.sequence pair.1
            (fun clips => clips.set pair.2
              { clipAt tl.sequence pair.1 pair.2 with
                  trackId := targetTrackId, start := newStart }))
          rw [uniqueTrackIds_modify]
          exact h
  | trimClip clipId dStart dEnd =>
    simp only [applyOp]
    cases hci : clipIndexOf tl.sequence clipId with
    | none => rw [trimClip_fail_noClip hci]; exact h
    | some pair =>
      by_cases hd : max 0 ((clipAt tl.sequence pair.1 pair.2).duration - dStart - dEnd) ≤ 0
      · rw [trimClip_fail_zero hci hd]; exact h
      · rw [trimClip_succ hci hd]
        show UniqueTrackIds (modifyTrackClips tl.sequence pair.1
          (fun clips => clips.set pair.2
            { clipAt tl.sequence pair.1 pair.2 with
                trimStart := (clipAt tl.sequence pair.1 pair.2).trimStart + dStart,
                trimEnd := (clipAt tl.sequence pair.1 pair.2).trimEnd + dEnd,
                duration := max 0 ((clipAt tl.sequence pair.1 pair.2).duration
                  - dStart - dEnd) }))
        rw [uniqueTrackIds_modify]
        exact h
  | splitClip clipId offsetSeconds =>
    simp only [applyOp]
    cases hci : clipIndexOf tl.sequence clipId with
    | none => rw [splitClip_fail_noClip hci]; exact h
    | some pair =>
      by_cases hoff : offsetSeconds ≤ 0 ∨
          (clipAt tl.sequence pair.1 pair.2).duration ≤ offsetSeconds
      · rw [splitClip_fail_offset hci hoff]; exact h
      · cases hg : trackIndexOf
            (setClipAt tl.sequence pair.1 pair.2
              (splitFirstHalf (clipAt tl.sequence pair.1 pair.2) offsetSeconds))
            (clipAt tl.sequence pair.1 pair.2).trackId with
        | none =>
          rw [splitClip_fail_ghost hci hoff hg]
          show UniqueTrackIds (modifyTrackClips tl.sequence pair.1
            (fun clips => clips.set pair.2
              (splitFirstHalf (clipAt tl.sequence pair.1 pair.2) offsetSeconds)))
          rw [uniqueTrackIds_modify]
          exact h
        | some t2 =>
          rw [splitClip_succ hci hoff hg]
          show UniqueTrackIds (modifyTrackClips
            (modifyTrackClips
              (modifyTrackClips tl.sequence pair.1
                (fun clips => clips.set pair.2
                  (splitFirstHalf (clipAt tl.sequence pair.1 pair.2) offsetSeconds)))
              t2
              (fun clips => clips ++
                [splitSecondHalf (clipAt tl.sequence pair.1 pair.2) offsetSeconds]))
            t2 sortClipsByStart)
          rw [uniqueTrackIds_modify, uniqueTrackIds_modify, uniqueTrackIds_modify]
          exact h
  | rippleDelete clipId =>
    simp only [applyOp]
    cases hci : clipIndexOf tl.sequence clipId with
    | none => rw [rippleDelete_fail_noClip hci]; exact h
    | some pair =>
      cases htr : trackIndexOf tl.sequence (clipAt tl.sequence pair.1 pair.2).trackId with
      | none => rw [rippleDelete_fail_noTrack hci htr]; exact h
      | some t =>
        rw [rippleDelete_succ hci htr]
        show UniqueTrackIds (modifyTrackClips tl.sequence t (fun _ =>
          rippleShift ((trackAt tl.sequence t).clips.eraseIdx pair.2) pair.2
            (clipAt tl.sequence pair.1 pair.2).start
            (clipAt tl.sequence pair.1 pair.2).duration))
        rw [uniqueTrackIds_modify]
        exact h

end ClaimC7Helpers

section ClaimC7ClipHelper

theorem sublist_flatMap_of_sublist {α β : Type} (g : α → List β) :
    ∀ {l₁ l₂ : List α}, l₁.Sublist l₂ → (l₁.flatMap g).Sublist (l₂.flatMap g) := by
  intro l₁ l₂ h
  induction h with
  | slnil => exact List.Sublist.refl _
  | cons a h2 ih =>
    rw [List.flatMap_cons]
    exact ih.trans (List.sublist_append_right _ _)
  | cons₂ a h2 ih =>
    rw [List.flatMap_cons, List.flatMap_cons]
    exact List.Sublist.append (List.Sublist.refl _) ih

/-- Clip ids stay unique under every clip-level operation — splitClip needs
its minted id fresh — and under addTrack/updateTrack installing a clipless
track; the counterexample shows what happens otherwise. -/
theorem clipIds_preserved (op : Op) (tl : Timeline)
    (h : UniqueClipIds tl.sequence) (hsafe : safeClipIdOp op tl = true) :
    UniqueClipIds (applyOp op tl).2.sequence := by
  cases op with
  | setMeta w hh f r => exact h
  | addTrack track =>
    simp only [applyOp]
    have hempty : track.clips = [] :=
      List.isEmpty_iff.mp (by simpa [safeClipIdOp] using hsafe)
    cases hb : trackIndexOf tl.sequence track.id with
    | some t => rw [addTrack_fail (by simp [hb])]; exact h
    | none =>
      rw [addTrack_succ hb]
      show (((tl.sequence.tracks ++ [track]).flatMap (fun tr => tr.clips)).map Clip.id).Nodup
      rw [List.flatMap_append]
      simp [hempty]
      exact h
  | updateTrack track =>
    simp only [applyOp]
    have hempty : track.clips = [] :=
      List.isEmpty_iff.mp (by simpa [safeClipIdOp] using hsafe)
    cases hb : trackIndexOf tl.sequence track.id with
    | none => rw [updateTrack_fail hb]; exact h
    | some t =>
      rw [updateTrack_succ hb]
      obtain ⟨tr0, hgt, hid0⟩ := trackIndexOf_some hb
      have hd := flatMap_set_decomp (fun tr : Track => tr.clips) hgt track
      show (((tl.sequence.tracks.set t track).flatMap (fun tr => tr.clips)).map Clip.id).Nodup
      rw [hd.1, hempty]
      have horig : clipIds tl.sequence =
          ((tl.sequence.tracks.take t).flatMap (fun tr => tr.clips)).map Clip.id ++
            (tr0.clips.map Clip.id ++
              ((tl.sequence.tracks.drop (t + 1)).flatMap (fun tr => tr.clips)).map Clip.id) := by
        show (tl.sequence.tracks.flatMap (fun tr => tr.clips)).map Clip.id = _
        rw [hd.2]
        simp
      have hsub : List.Sublist
          ((((tl.sequence.tracks.take t).flatMap (fun tr => tr.clips)) ++
            ([] ++ ((tl.sequence.tracks.drop (t + 1)).flatMap (fun tr => tr.clips)))).map
              Clip.id)
          (clipIds tl.sequence) := by
        rw [horig]
        simp only [List.map_append, List.nil_append, List.map_nil]
        exact List.Sublist.append (List.Sublist.refl _)
          (List.sublist_append_right _ _)
      exact List.Nodup.sublist hsub h
  | removeTrack trackId =>
    simp only [applyOp]
    cases hb : trackIndexOf tl.sequence trackId with
    | none => rw [removeTrack_fail hb]; exact h
    | some t =>
      rw [removeTrack_succ hb]
      show (((tl.sequence.tracks.eraseIdx t).flatMap (fun tr => tr.clips)).map Clip.id).Nodup
      have hsub : List.Sublist (tl.sequence.tracks.eraseIdx t) tl.sequence.tracks :=
        tl.sequence.tracks.eraseIdx_sublist t
      exact List.Nodup.sublist
        ((sublist_flatMap_of_sublist (fun tr => tr.clips) hsub).map Clip.id) h
  | upsertClip clip =>
    simp only [applyOp]
    cases htr : trackIndexOf tl.sequence clip.trackId with
    | none => rw [upsertClip_fail_noTrack htr]; exact h
    | some tIdx =>
      cases hci : clipIndexOf tl.sequence clip.id with
      | none =>
        cases hval : validatePlacement (trackAt tl.sequence tIdx) clip none with
        | false => rw [upsertClip_fail_new htr hci hval]; exact h
        | true =>
          rw [upsertClip_succ_new htr hci hval]
          obtain ⟨tr, hgt, _⟩ := trackIndexOf_some htr
          have hperm2 := clipIds_sortTrackAt_perm
            (modifyTrackClips tl.sequence tIdx (fun clips => clips ++ [clip])) tIdx
          have hperm1 := clipIds_append_clip_perm hgt clip
          show (clipIds (sortTrackAt
            (modifyTrackClips tl.sequence tIdx (fun clips => clips ++ [clip])) tIdx)).Nodup
          rw [(hperm2.trans hperm1).nodup_iff, List.nodup_cons]
          exact ⟨not_mem_clipIds_of_none hci, h⟩
      | some pair =>
        cases hval : validatePlacement (trackAt tl.sequence tIdx) clip (some pair.2) with
        | false => rw [upsertClip_fail_existing htr hci hval]; exact h
        | true =>
          rw [upsertClip_succ_existing htr hci hval]
          obtain ⟨tr1, cl1, hg1, hc1, hid1⟩ := clipIndexOf_some hci
          have hsame := clipIds_setClipAt_same hg1 hc1 clip hid1.symm
          have hperm2 := clipIds_sortTrackAt_perm
            (setClipAt tl.sequence pair.1 pair.2 clip) tIdx
          show (clipIds (sortTrackAt (setClipAt tl.sequence pair.1 pair.2 clip) tIdx)).Nodup
          rw [hperm2.nodup_iff, hsame]
          exact h
  | moveClip clipId targetTrackId newStart =>
    simp only [applyOp]
    cases hci : clipIndexOf tl.sequence clipId with
    | none => rw [moveClip_fail_noClip hci]; exact h
    | some pair =>
      cases htr : trackIndexOf tl.sequence targetTrackId with
      | none => rw [moveClip_fail_noTrack htr]; exact h
      | some tt =>
        cases hval : validatePlacement (trackAt tl.sequence tt)
            { clipAt tl.sequence pair.1 pair.2 with
                trackId := targetTrackId, start := newStart } none with
        | false => rw [moveClip_fail_invalid hci htr hval]; exact h
        | true =>
          rw [moveClip_succ hci htr hval]
          obtain ⟨tr1, cl1, hg1, hc1, hid1⟩ := clipIndexOf_some hci
          have hclAt : clipAt tl.sequence pair.1 pair.2 = cl1 := clipAt_of_get? hg1 hc1
          have hsame := clipIds_setClipAt_same hg1 hc1
            { clipAt tl.sequence pair.1 pair.2 with
                trackId := targetTrackId, start := newStart }
            (by rw [hclAt])
          show (clipIds (setClipAt tl.sequence pair.1 pair.2
            { clipAt tl.sequence pair.1 pair.2 with
                trackId := targetTrackId, start := newStart })).Nodup
          rw [hsame]
          exact h
  | trimClip clipId dStart dEnd =>
    simp only [applyOp]
    cases hci : clipIndexOf tl.sequence clipId with
    | none => rw [trimClip_fail_noClip hci]; exact h
    | some pair =>
      by_cases hd : max 0 ((clipAt tl.sequence pair.1 pair.2).duration - dStart - dEnd) ≤ 0
      · rw [trimClip_fail_zero hci hd]; exact h
      · rw [trimClip_succ hci hd]
        obtain ⟨tr1, cl1, hg1, hc1, hid1⟩ := clipIndexOf_some hci
        have hclAt : clipAt tl.sequence pair.1 pair.2 = cl1 := clipAt_of_get? hg1 hc1
        have hsame := clipIds_setClipAt_same hg1 hc1
          { clipAt tl.sequence pair.1 pair.2 with
              trimStart := (clipAt tl.sequence pair.1 pair.2).trimStart + dStart,
              trimEnd := (clipAt tl.sequence pair.1 pair.2).trimEnd + dEnd,
              duration := max 0 ((clipAt tl.sequence pair.1 pair.2).duration
                - dStart - dEnd) }
          (by rw [hclAt])
        show (clipIds (setClipAt tl.sequence pair.1 pair.2
          { clipAt tl.sequence pair.1 pair.2 with
              trimStart := (clipAt tl.sequence pair.1 pair.2).trimStart + dStart,
              trimEnd := (clipAt tl.sequence pair.1 pair.2).trimEnd + dEnd,
              duration := max 0 ((clipAt tl.sequence pair.1 pair.2).duration
                - dStart - dEnd) })).Nodup
        rw [hsame]
        exact h
  | splitClip clipId offsetSeconds =>
    simp only [applyOp]
    have hfresh : (clipId ++ "_b") ∉ clipIds tl.sequence := by
      simpa [safeClipIdOp] using hsafe
    cases hci : clipIndexOf tl.sequence clipId with
    | none => rw [splitClip_fail_noClip hci]; exact h
    | some pair =>
      obtain ⟨tr1, cl1, hg1, hc1, hid1⟩ := clipIndexOf_some hci
      have hclAt : clipAt tl.sequence pair.1 pair.2 = cl1 := clipAt_of_get? hg1 hc1
      have hsame := clipIds_setClipAt_same hg1 hc1
        (splitFirstHalf (clipAt tl.sequence pair.1 pair.2) offsetSeconds)
        (by rw [hclAt]; rfl)
      by_cases hoff : offsetSeconds ≤ 0 ∨
          (clipAt tl.sequence pair.1 pair.2).duration ≤ offsetSeconds
      · rw [splitClip_fail_offset hci hoff]; exact h
      · cases hg : trackIndexOf
            (setClipAt tl.sequence pair.1 pair.2
              (splitFirstHalf (clipAt tl.sequence pair.1 pair.2) offsetSeconds))
            (clipAt tl.sequence pair.1 pair.2).trackId with
        | none =>
          rw [splitClip_fail_ghost hci hoff hg]
          show (clipIds (setClipAt tl.sequence pair.1 pair.2
            (splitFirstHalf (clipAt tl.sequence pair.1 pair.2) offsetSeconds))).Nodup
          rw [hsame]
          exact h
        | some t2 =>
          rw [splitClip_succ hci hoff hg]
          obtain ⟨tr2, hg2, _⟩ := trackIndexOf_some hg
          have hperm1 := clipIds_append_clip_perm hg2
            (splitSecondHalf (clipAt tl.sequence pair.1 pair.2) offsetSeconds)
          have hperm2 := clipIds_sortTrackAt_perm
            (modifyTrackClips
              (setClipAt tl.sequence pair.1 pair.2
                (splitFirstHalf (clipAt tl.sequence pair.1 pair.2) offsetSeconds))
              t2
              (fun clips => clips ++
                [splitSecondHalf (clipAt tl.sequence pair.1 pair.2) offsetSeconds]))
            t2
          show (clipIds (sortTrackAt
            (modifyTrackClips
              (setClipAt tl.sequence pair.1 pair.2
                (splitFirstHalf (clipAt tl.sequence pair.1 pair.2) offsetSeconds))
              t2
              (fun clips => clips ++
                [splitSecondHalf (clipAt tl.sequence pair.1 pair.2) offsetSeconds]))
            t2)).Nodup
          rw [(hperm2.trans hperm1).nodup_iff, List.nodup_cons]
          constructor
          · show (splitSecondHalf (clipAt tl.sequence pair.1 pair.2) offsetSeconds).id ∉ _
            rw [hsame]
            have : (splitSecondHalf (clipAt tl.sequence pair.1 pair.2) offsetSeconds).id =
                clipId ++ "_b" := by
              show (clipAt tl.sequence pair.1 pair.2).id ++ "_b" = clipId ++ "_b"
              rw [hclAt, hid1]
            rw [this]
            exact hfresh
          · rw [hsame]
            exact h
  | rippleDelete clipId =>
    simp only [applyOp]
    cases hci : clipIndexOf tl.sequence clipId with
    | none => rw [rippleDelete_fail_noClip hci]; exact h
    | some pair =>
      cases htr : trackIndexOf tl.sequence (clipAt tl.sequence pair.1 pair.2).trackId with
      | none => rw [rippleDelete_fail_noTrack hci htr]; exact h
      | some t =>
        rw [rippleDelete_succ hci htr]
        obtain ⟨trt, hgt, _⟩ := trackIndexOf_some htr
        have htrAt : trackAt tl.sequence t = trt := trackAt_of_get? hgt
        have hids := rippleShift_map_id ((trackAt tl.sequence t).clips.eraseIdx pair.2)
          pair.2 (clipAt tl.sequence pair.1 pair.2).start
          (clipAt tl.sequence pair.1 pair.2).duration
        have hsub0 : List.Sublist
            (((trackAt tl.sequence t).clips.eraseIdx pair.2).map Clip.id)
            (trt.clips.map Clip.id) := by
          rw [htrAt]
          exact (trt.clips.eraseIdx_sublist pair.2).map Clip.id
        have hsub := clipIds_replace_sublist hgt
          (rippleShift ((trackAt tl.sequence t).clips.eraseIdx pair.2) pair.2
            (clipAt tl.sequence pair.1 pair.2).start
            (clipAt tl.sequence pair.1 pair.2).duration)
          (by rw [hids]; exact hsub0)
        show (clipIds (modifyTrackClips tl.sequence t (fun _ =>
          rippleShift ((trackAt tl.sequence t).clips.eraseIdx pair.2) pair.2
            (clipAt tl.sequence pair.1 pair.2).start
            (clipAt tl.sequence pair.1 pair.2).duration))).Nodup
        exact List.Nodup.sublist hsub h

end ClaimC7ClipHelper

section ClaimC7Amended

/-- C7 (amended): after every operation, track ids stay unique (addTrack
checks, updateTrack keeps the id, the rest never touch track ids).  Clip
ids stay unique under upsertClip, moveClip, trimClip, rippleDelete, under
splitClip provided no clip already carries the minted id X ++ "_b", and
under addTrack/updateTrack when the installed track carries no clips;
splitClip with a stale suffix (see the counterexample) and the two
track-installing operations with caller-supplied clips can create
duplicates. -/
theorem id_uniqueness_preserved (op : Op) (tl : Timeline) :
    (UniqueTrackIds tl.sequence → UniqueTrackIds (applyOp op tl).2.sequence) ∧
    (UniqueClipIds tl.sequence → safeClipIdOp op tl = true →
      UniqueClipIds (applyOp op tl).2.sequence) :=
  ⟨trackIds_preserved op tl, fun h hs => clipIds_preserved op tl h hs⟩

/-- C7 witness: a fresh-suffix split (splitClip("c",2) on the reachable S4
state mints "c_b", which is free) keeps both uniqueness invariants. -/
theorem id_uniqueness_preserved_witness :
    UniqueTrackIds tlS4.sequence ∧ UniqueClipIds tlS4.sequence ∧
    safeClipIdOp (Op.splitClip "c" 2) tlS4 = true ∧
    UniqueTrackIds (applyOp (Op.splitClip "c" 2) tlS4).2.sequence ∧
    UniqueClipIds (applyOp (Op.splitClip "c" 2) tlS4).2.sequence :=
  ⟨by decide, by decide, by decide,
    (id_uniqueness_preserved (Op.splitClip "c" 2) tlS4).1 (by decide),
    (id_uniqueness_preserved (Op.splitClip "c" 2) tlS4).2 (by decide) (by decide)⟩

end ClaimC7Amended

section ClaimC9

/-- The containment test of `frameAt`, as a Bool, holds exactly on clips
whose closed interval contains the query time. -/
theorem frameAt_pred_iff (c : Clip) (t : ℚ) :
    (decide (c.start ≤ t) && decide (t ≤ c.endTime)) = true ↔ ContainsTime c t := by
  unfold ContainsTime
  simp

/-- The per-track probe of `frameAt` answers `none` exactly when the track
is not a video track or no clip of it contains the time. -/
theorem frameAt_probe_eq_none_iff (track : Track) (t : ℚ) :
    (if track.kind ≠ TrackKind.video then none
     else (track.clips.find? fun c =>
        decide (c.start ≤ t) && decide (t ≤ c.endTime)).map
        (fun c => ({ clipId := c.id, localTime := t - c.start,
                     globalTime := t } : TimelineFrameInfo))) = none ↔
    (track.kind = TrackKind.video → ∀ c ∈ track.clips, ¬ ContainsTime c t) := by
  by_cases hk : track.kind = TrackKind.video
  · rw [if_neg (by simp [hk])]
    rw [Option.map_eq_none']
    rw [List.find?_eq_none]
    constructor
    · intro h _ c hc
      rw [← frameAt_pred_iff c t]
      exact fun hp => h c hc hp
    · intro h c hc hp
      exact (h hk c hc) ((frameAt_pred_iff c t).mp hp)
  · rw [if_pos (by simp [hk])]
    simp [hk]

/-- In a start-sorted clip list, the first containing clip found has the
least start among all containing clips. -/
theorem find?_containing_min {t : ℚ} :
    ∀ {l : List Clip} {c : Clip}, SortedByStart l →
      (l.find? fun c => decide (c.start ≤ t) && decide (t ≤ c.endTime)) = some c →
      c ∈ l ∧ ContainsTime c t ∧ ∀ c2 ∈ l, ContainsTime c2 t → c.start ≤ c2.start := by
  intro l
  induction l with
  | nil => intro c hs h; simp at h
  | cons a l ih =>
    intro c hs h
    cases hpa : (decide (a.start ≤ t) && decide (t ≤ a.endTime)) with
    | true =>
      rw [List.find?_cons_of_pos l hpa] at h
      cases h
      refine ⟨List.mem_cons_self a l, (frameAt_pred_iff a t).mp hpa, ?_⟩
      intro c2 hc2 _
      rcases List.mem_cons.mp hc2 with rfl | hc2
      · exact le_refl _
      · exact (List.pairwise_cons.mp hs).1 c2 hc2
    | false =>
      rw [List.find?_cons_of_neg l (by simp [hpa])] at h
      obtain ⟨hmem, hcont, hmin⟩ := ih (List.pairwise_cons.mp hs).2 h
      refine ⟨List.mem_cons_of_mem a hmem, hcont, ?_⟩
      intro c2 hc2 hcont2
      rcases List.mem_cons.mp hc2 with rfl | hc2
      · exact absurd ((frameAt_pred_iff c2 t).mpr hcont2) (by simp [hpa])
      · exact hmin c2 hc2 hcont2

/-- Scanning the track list: a `some` answer comes from the first video
track containing the time, with the data and minimality of the claim. -/
theorem frameAtGo_some {t : ℚ} :
    ∀ {tracks : List Track} {info : TimelineFrameInfo},
      (∀ tr ∈ tracks, SortedByStart tr.clips) →
      tracks.findSome? (fun track =>
        if track.kind ≠ TrackKind.video then none
        else (track.clips.find? fun c =>
            decide (c.start ≤ t) && decide (t ≤ c.endTime)).map
          (fun c => ({ clipId := c.id, localTime := t - c.start,
                       globalTime := t } : TimelineFrameInfo))) = some info →
      ∃ i tr, tracks.get? i = some tr ∧ tr.kind = TrackKind.video ∧
        ∃ c ∈ tr.clips, ContainsTime c t ∧
          info = { clipId := c.id, localTime := t - c.start, globalTime := t } ∧
          (∀ j tr2, j < i → tracks.get? j = some tr2 →
            tr2.kind = TrackKind.video → ∀ c2 ∈ tr2.clips, ¬ ContainsTime c2 t) ∧
          (∀ c2 ∈ tr.clips, ContainsTime c2 t → c.start ≤ c2.start) := by
  intro tracks
  induction tracks with
  | nil => intro info hs h; simp at h
  | cons tr rest ih =>
    intro info hs h
    rw [List.findSome?_cons] at h
    cases hF : (if tr.kind ≠ TrackKind.video then none
        else (tr.clips.find? fun c =>
            decide (c.start ≤ t) && decide (t ≤ c.endTime)).map
          (fun c => ({ clipId := c.id, localTime := t - c.start,
                       globalTime := t } : TimelineFrameInfo))) with
    | some b =>
      rw [hF] at h
      cases h
      by_cases hk : tr.kind = TrackKind.video
      · rw [if_neg (by simp [hk])] at hF
        obtain ⟨c, hfind, hmk⟩ := Option.map_eq_some'.mp hF
        obtain ⟨hmem, hcont, hmin⟩ :=
          find?_containing_min (hs tr (List.mem_cons_self tr rest)) hfind
        refine ⟨0, tr, rfl, hk, c, hmem, hcont, hmk.symm, ?_, hmin⟩
        intro j tr2 hj
        exact absurd hj (Nat.not_lt_zero j)
      · rw [if_pos (by simp [hk])] at hF
        cases hF
    | none =>
      rw [hF] at h
      obtain ⟨i, tr2, hget, hk, c, hmem, hcont, hinfo, hearlier, hmin⟩ :=
        ih (fun tr2 htr2 => hs tr2 (List.mem_cons_of_mem tr htr2)) h
      refine ⟨i + 1, tr2, by simpa using hget, hk, c, hmem, hcont, hinfo, ?_, hmin⟩
      intro j tr3 hj hget3 hk3 c2 hc2
      cases j with
      | zero =>
        simp at hget3
        subst hget3
        exact (frameAt_probe_eq_none_iff tr t).mp hF hk3 c2 hc2
      | succ j2 =>
        simp only [List.get?_cons_succ] at hget3
        exact hearlier j2 tr3 (by omega) hget3 hk3 c2 hc2

/-- C9: frameAt scans tracks in declaration order looking only at
Video-kind tracks; it answers `none` exactly when no video-track clip
contains t, and a `some` answer carries (C.id, t − C.start, t) for a
containing clip C of the FIRST video track containing t, C being first in
that track's sorted order (hence of least start among its containing
clips). -/
theorem frameAt_characterisation (s : Sequence) (t : ℚ) (hsort : TracksSorted s) :
    (frameAt s t = none ↔
      ∀ tr ∈ s.tracks, tr.kind = TrackKind.video → ∀ c ∈ tr.clips, ¬ ContainsTime c t) ∧
    (∀ info, frameAt s t = some info →
      ∃ i tr, s.tracks.get? i = some tr ∧ tr.kind = TrackKind.video ∧
        ∃ c ∈ tr.clips, ContainsTime c t ∧
          info = { clipId := c.id, localTime := t - c.start, globalTime := t } ∧
          (∀ j tr2, j < i → s.tracks.get? j = some tr2 →
            tr2.kind = TrackKind.video → ∀ c2 ∈ tr2.clips, ¬ ContainsTime c2 t) ∧
          (∀ c2 ∈ tr.clips, ContainsTime c2 t → c.start ≤ c2.start)) := by
  constructor
  · unfold frameAt
    rw [List.findSome?_eq_none]
    constructor
    · intro h tr htr
      exact (frameAt_probe_eq_none_iff tr t).mp (h tr htr)
    · intro h tr htr
      exact (frameAt_probe_eq_none_iff tr t).mpr (h tr htr)
  · intro info h
    exact frameAtGo_some (fun tr htr => hsort tr htr) h

/-- C9 witness: on the reachable S1 state, frameAt(4) answers clip a with
local time 4 at global time 4, and the characterisation applies. -/
theorem frameAt_characterisation_witness :
    TracksSorted tlS1.sequence ∧
    frameAt tlS1.sequence 4 =
      some { clipId := "a", localTime := 4, globalTime := 4 } ∧
    ((frameAt tlS1.sequence 4 = none ↔
      ∀ tr ∈ tlS1.sequence.tracks, tr.kind = TrackKind.video →
        ∀ c ∈ tr.clips, ¬ ContainsTime c 4) ∧
    (∀ info, frameAt tlS1.sequence 4 = some info →
      ∃ i tr, tlS1.sequence.tracks.get? i = some tr ∧ tr.kind = TrackKind.video ∧
        ∃ c ∈ tr.clips, ContainsTime c 4 ∧
          info = { clipId := c.id, localTime := 4 - c.start, globalTime := 4 } ∧
          (∀ j tr2, j < i → tlS1.sequence.tracks.get? j = some tr2 →
            tr2.kind = TrackKind.video → ∀ c2 ∈ tr2.clips, ¬ ContainsTime c2 4) ∧
          (∀ c2 ∈ tr.clips, ContainsTime c2 4 → c.start ≤ c2.start))) :=
  ⟨by decide, by decide, frameAt_characterisation tlS1.sequence 4 (by decide)⟩

end ClaimC9

end Capcut











